import Mathlib

/-!
Verification of the rtfcre translation transcoder against its specification.

The development is a shallow embedding of the Rust sources:
  * `src/translation_model.rs` — the `Object` directive model;
  * `src/translation.rs`       — the Plover parser and the Plover→RTF formatter;
  * `src/translation_parse.rs` — the RTF parser, the attach fixup and the
                                 RTF→Plover formatter;
  * `src/dict.rs`              — the dictionary container.

Strings are modelled as `List Char` (Rust `&str` viewed as a sequence of
code points).  A nom parser returning `IResult` is modelled as a function
into `PRes`: `ok rem val` is nom's `Ok((rem, val))`, `fail` is a recoverable
`Err`, and `panic` marks a Rust panic (an `unwrap` failure or an
out-of-bounds byte slice).  The recursive entry points `rest` and `objects`
recurse through `opt(self)`; when the chosen alternative consumes no input
the Rust program calls itself on the identical input and therefore never
terminates, which the model makes explicit with the `diverge` outcome.
-/

namespace Rtfcre

/-- ASCII lower-casing of a character.  (Rust `to_lowercase` performs full
Unicode case folding; every name this program case-folds is ASCII, where the
two agree.) -/
def lowerChar (c : Char) : Char :=
  if 65 ≤ c.toNat ∧ c.toNat ≤ 90 then Char.ofNat (c.toNat + 32) else c

/-- ASCII-lower-case a string (Rust `str::to_lowercase`). -/
def toLowerStr (s : List Char) : List Char := s.map lowerChar

/-- nom `space1` character class: space or tab. -/
def isSpaceTab (c : Char) : Bool := c = ' ' ∨ c = '\t'

/-- nom `alpha1` character class: ASCII letter. -/
def isAsciiAlpha (c : Char) : Bool := ('a' ≤ c ∧ c ≤ 'z') ∨ ('A' ≤ c ∧ c ≤ 'Z')

/-- nom `digit1` character class: ASCII digit. -/
def isAsciiDigit (c : Char) : Bool := '0' ≤ c ∧ c ≤ '9'

/-- Rust `char::is_whitespace` restricted to the ASCII range used by
`str::trim` in this program. -/
def isRustSpace (c : Char) : Bool := c = ' ' ∨ c = '\t' ∨ c = '\n' ∨ c = '\r'

/-- nom `tag`: consume the literal `pat`, returning the remaining input. -/
def tagP : List Char → List Char → Option (List Char)
  | [], input => some input
  | _ :: _, [] => none
  | p :: ps, c :: cs => if p = c then tagP ps cs else none

/-- nom `tag_no_case`: like `tagP` but compares case-insensitively. -/
def tagNoCaseP : List Char → List Char → Option (List Char)
  | [], input => some input
  | _ :: _, [] => none
  | p :: ps, c :: cs => if lowerChar p = lowerChar c then tagNoCaseP ps cs else none

/-- nom `take_till p`: longest prefix on which `p` is false (never fails).
Returns (taken, remaining). -/
def takeTillP (p : Char → Bool) : List Char → List Char × List Char
  | [] => ([], [])
  | c :: cs =>
    if p c then ([], c :: cs)
    else
      let r := takeTillP p cs
      (c :: r.1, r.2)

/-- nom `take_while p`: longest prefix on which `p` is true (never fails). -/
def takeWhileP (p : Char → Bool) : List Char → List Char × List Char
  | [] => ([], [])
  | c :: cs =>
    if p c then
      let r := takeWhileP p cs
      (c :: r.1, r.2)
    else ([], c :: cs)

/-- nom `take_while1`: like `takeWhileP` but fails on an empty match. -/
def takeWhile1P (p : Char → Bool) (input : List Char) :
    Option (List Char × List Char) :=
  match takeWhileP p input with
  | ([], _) => none
  | (t, r) => some (t, r)

/-- nom `take_until pat`: consume up to the first occurrence of `pat`,
leaving `pat` itself in the remaining input; fails when `pat` is absent. -/
def takeUntilP (pat : List Char) : List Char → Option (List Char × List Char)
  | [] => if pat.isPrefixOf ([] : List Char) then some ([], []) else none
  | c :: cs =>
    if pat.isPrefixOf (c :: cs) then some ([], c :: cs)
    else
      match takeUntilP pat cs with
      | some (pre, suf) => some (c :: pre, suf)
      | none => none

/-- Ordered alternative over literal tags; returns the matched tag and the
remaining input (nom `alt` over `tag`s). -/
def altTags : List (List Char) → List Char → Option (List Char × List Char)
  | [], _ => none
  | p :: ps, input =>
    match tagP p input with
    | some rem => some (p, rem)
    | none => altTags ps input

/-- Rust `str::splitn(2, t)` when a separator is present: the part before the
first `t` and the part after it. -/
def splitFirst (t : Char) : List Char → Option (List Char × List Char)
  | [] => none
  | c :: cs =>
    if c = t then some ([], cs)
    else
      match splitFirst t cs with
      | some (a, b) => some (c :: a, b)
      | none => none

/-- Rust `str::trim` (ASCII whitespace; every trimmed payload here is ASCII). -/
def rustTrim (s : List Char) : List Char :=
  ((takeWhileP isRustSpace s).2.reverse.dropWhile isRustSpace).reverse

/-- The `opt!` macro of `translation.rs`: collapse `Some("")` to `None`. -/
def optEmpty : Option (List Char) → Option (List Char)
  | some [] => none
  | some x => some x
  | none => none

/-- `match s { "" => None, x => Some(x) }` used by the currency parsers. -/
def emptyToNone (s : List Char) : Option (List Char) :=
  if s = [] then none else some s

/-- Numeric value of a list of ASCII digits (Rust `str::parse`). -/
def digitsVal (ds : List Char) : Nat :=
  ds.foldl (fun a c => 10 * a + (c.toNat - 48)) 0

/-- The decimal digit character for `n < 10`. -/
def digitChar (n : Nat) : Char := Char.ofNat (48 + n)

/-- Fuel-driven decimal printer (accumulator form). -/
def natDecAux : Nat → Nat → List Char → List Char
  | 0, _, acc => acc
  | fuel + 1, n, acc =>
    if n < 10 then digitChar n :: acc
    else natDecAux fuel (n / 10) (digitChar (n % 10) :: acc)

/-- Decimal representation of a natural number (Rust `format!` of an
unsigned integer). -/
def natDecimal (n : Nat) : List Char := natDecAux (n + 1) n []

/-- Recursive characterisation of `natDecimal`, used only in proofs. -/
def natDigitsSpec (n : Nat) : List Char :=
  if h : n < 10 then [digitChar n]
  else natDigitsSpec (n / 10) ++ [digitChar (n % 10)]
decreasing_by exact Nat.div_lt_self (by omega) (by omega)

/-- Result of one nom parser: success with remaining input, recoverable
failure, or a Rust panic. -/
inductive PRes (α : Type) : Type where
  | ok (rem : List Char) (val : α)
  | fail
  | panic
deriving DecidableEq

/-- nom `alt` on two branches: try `b` only when `a` failed recoverably. -/
def PRes.orElse {α : Type} (a : PRes α) (b : Unit → PRes α) : PRes α :=
  match a with
  | .fail => b ()
  | x => x

/-- Outcome of a whole transcoding run. -/
inductive Out : Type where
  | ok (s : List Char)
  | panic
  | diverge
deriving DecidableEq

/-- Sequencing of transcoder runs (used to state round-trip properties). -/
def Out.bind (a : Out) (f : List Char → Out) : Out :=
  match a with
  | .ok s => f s
  | .panic => .panic
  | .diverge => .diverge

/-- The directive model of `translation_model.rs` (`enum Case`). -/
inductive Case : Type where
  | Sentence | Lower | Upper | Title | Camel | Snake
deriving DecidableEq

/-- The directive model of `translation_model.rs` (`enum ParagraphMode`). -/
inductive ParagraphMode : Type where
  | Default | Contin
deriving DecidableEq

/-- The directive model of `translation_model.rs` (`enum Object`). -/
inductive Object : Type where
  | Cancel | Noop | DeleteStroke | RepeatLastStroke
  | RetroToggleStar | RetroInsertSpace | RetroDeleteSpace
  | Space | HardSpace
  | Paragraph (mode : ParagraphMode)
  | RawString (s : List Char)
  | Fingerspell (s : List Char)
  | Stitch (s : List Char)
  | Command (name : List Char) (arg : Option (List Char))
  | Meta (name : List Char) (arg : Option (List Char))
  | Macro (name : List Char) (arg : Option (List Char))
  | Currency (pre : Option (List Char)) (post : Option (List Char))
  | Punctuation (s : List Char)
  | KeyCombo (s : List Char)
  | ResetCaseAndSpace
  | CaseMode (c : Case)
  | SpaceMode (s : Option (List Char))
  | AttachRaw | OrthoAttach
  | AttachPrefix (s : List Char)
  | AttachSuffix (s : List Char)
  | AttachInfix (s : List Char)
  | CarryCapRaw (s : List Char)
  | CarryCapPrefix (s : List Char)
  | CarryCapSuffix (s : List Char)
  | CarryCapInfix (s : List Char)
  | ForceCapitalize | ForceLowercase
  | RetroForceCapitalize | RetroForceLowercase
  | ForceCapitalizeWord | RetroForceCapitalizeWord
deriving DecidableEq

/-- Result of the recursive sequence parsers `rest`/`objects`: as `PRes`,
plus `diverge` for the infinite self-recursion the Rust code performs when
an alternative consumes no input. -/
inductive RRes : Type where
  | ok (rem : List Char) (objs : List Object)
  | fail
  | panic
  | diverge
deriving DecidableEq

/-- Outcome of a whole parse (`parse_translation` discards leftover input). -/
inductive ParseOut : Type where
  | ok (objs : List Object)
  | panic
  | diverge
deriving DecidableEq

end Rtfcre

namespace Rtfcre

namespace Plover

/-- `translation.rs::escaped`. -/
def escaped (input : List Char) : PRes Object :=
  match tagP ['\\', '\\'] input with
  | some rem => .ok rem (Object.RawString ['\\'])
  | none =>
  match tagP ['\\', '\x7b'] input with
  | some rem => .ok rem (Object.RawString ['\x7b'])
  | none =>
  match tagP ['\\', '\x7d'] input with
  | some rem => .ok rem (Object.RawString ['\x7d'])
  | none => .fail

/-- `translation.rs::cancel`. -/
def cancel (input : List Char) : PRes Object :=
  match tagP ['\x7b', '\x7d'] input with
  | some rem => .ok rem Object.Cancel
  | none => .fail

/-- `translation.rs::noop`. -/
def noop (input : List Char) : PRes Object :=
  match tagP ['\x7b', '#', '\x7d'] input with
  | some rem => .ok rem Object.Noop
  | none => .fail

/-- `translation.rs::spaces`. -/
def spaces (input : List Char) : PRes Object :=
  match tagP ['\x7b'] input with
  | none => .fail
  | some r1 =>
  match takeWhile1P isSpaceTab r1 with
  | none => .fail
  | some (_, r2) =>
  match tagP ['\x7d'] r2 with
  | none => .fail
  | some r3 => .ok r3 Object.Space

/-- `translation.rs::argument`; returns the argument and the remaining
input. -/
def argument (input : List Char) : Option (List Char × List Char) :=
  match tagP [':'] input with
  | none => none
  | some r =>
    let t := takeWhileP (fun c => c ≠ '\x7d') r
    some (t.1, t.2)

/-- `translation.rs::command`. -/
def command (input : List Char) : PRes Object :=
  match tagNoCaseP ("\x7bplover:".toList) input with
  | none => .fail
  | some r1 =>
    let n := takeTillP (fun c => c = ':' ∨ c = '\x7d') r1
    match argument n.2 with
    | some (arg, r2) =>
      (match tagP ['\x7d'] r2 with
       | none => .fail
       | some r3 => .ok r3 (Object.Command (toLowerStr n.1) (optEmpty (some arg))))
    | none =>
      match tagP ['\x7d'] n.2 with
      | none => .fail
      | some r3 => .ok r3 (Object.Command (toLowerStr n.1) none)

/-- The name dispatch of `translation.rs::meta`, after the surrounding
braces have been consumed.  `.panic` models the `unwrap()` calls on an
absent or empty argument, and the out-of-bounds slice `&x[1..x.len()-1]`
for `carry_capitalize` on the one-character argument `"^"`. -/
def metaDispatch (rem : List Char) (lname : List Char)
    (metaArg : Option (List Char)) : PRes Object :=
  if lname = "glue".toList then
    match optEmpty metaArg with
    | some a => .ok rem (Object.Fingerspell a)
    | none => .panic
  else if lname = "stop".toList ∨ lname = "comma".toList then
    match optEmpty metaArg with
    | some a => .ok rem (Object.Punctuation a)
    | none => .panic
  else if lname = "key_combo".toList then
    match optEmpty metaArg with
    | some a => .ok rem (Object.KeyCombo a)
    | none => .panic
  else if lname = "case".toList then
    match optEmpty metaArg with
    | none => .panic
    | some a =>
      if a = "cap_first_word".toList then .ok rem Object.ForceCapitalize
      else if a = "upper_first_word".toList then .ok rem Object.ForceCapitalizeWord
      else if a = "lower_first_char".toList then .ok rem Object.ForceLowercase
      else .ok rem (Object.Meta lname (some a))
  else if lname = "attach".toList then
    match metaArg with
    | some a =>
      if a = [' '] then .ok rem Object.HardSpace
      else if a.head? = some '^' then .ok rem (Object.AttachSuffix (a.drop 1))
      else if a.getLast? = some '^' then .ok rem ( Object.AttachPrefix a.dropLast)
      else .ok rem ( Object.AttachInfix a)
    | none => .ok rem Object.AttachRaw
  else if lname = "carry_capitalize".toList then
    match metaArg with
    | some a =>
      if a.head? = some '^' ∧ a.getLast? = some '^' then
        (if 2 ≤ a.length then .ok rem ( Object.CarryCapInfix ((a.drop 1).dropLast))
         else .panic)
      else if a.head? = some '^' then .ok rem (Object.CarryCapSuffix (a.drop 1))
      else if a.getLast? = some '^' then .ok rem ( Object.CarryCapPrefix a.dropLast)
      else .ok rem (Object.CarryCapRaw a)
    | none => .ok rem (Object.CarryCapRaw [])
  else if lname = "retro_case".toList then
    match optEmpty metaArg with
    | none => .panic
    | some a =>
      if a = "cap_first_word".toList then .ok rem Object.RetroForceCapitalize
      else if a = "upper_first_word".toList then .ok rem Object.RetroForceCapitalizeWord
      else if a = "lower_first_char".toList then .ok rem Object.RetroForceLowercase
      else .ok rem (Object.Meta lname (some a))
  else if lname = "stitch".toList then
    match optEmpty metaArg with
    | none => .panic
    | some a =>
      if a.contains ':' then
        match splitFirst ':' a with
        | some (p0, _) => .ok rem (Object.Stitch p0)
        | none => .panic
      else .ok rem (Object.Stitch a)
  else if lname = "command".toList then
    match optEmpty metaArg with
    | none => .panic
    | some a =>
      if a.contains ':' then
        match splitFirst ':' a with
        | some (p0, r0) =>
          .ok rem (Object.Command (toLowerStr p0)
                    (some (takeTillP (fun c => c = ':') r0).1))
        | none => .panic
      else .ok rem (Object.Command (toLowerStr a) none)
  else if lname = "mode".toList then
    match optEmpty metaArg with
    | none => .panic
    | some a =>
      if a = "reset_case".toList then .ok rem (Object.CaseMode Case.Sentence)
      else if a = "lower".toList then .ok rem (Object.CaseMode Case.Lower)
      else if a = "title".toList then .ok rem (Object.CaseMode Case.Title)
      else if a = "caps".toList then .ok rem (Object.CaseMode Case.Upper)
      else if a = "camel".toList then .ok rem (Object.CaseMode Case.Camel)
      else if a = "snake".toList then .ok rem (Object.CaseMode Case.Snake)
      else if a = "reset_space".toList then .ok rem (Object.SpaceMode none)
      else if a = "reset".toList then .ok rem Object.ResetCaseAndSpace
      else if "set_space:".toList.isPrefixOf a then
        .ok rem (Object.SpaceMode (some (a.drop 10)))
      else .ok rem (Object.Meta lname (optEmpty metaArg))
  else .ok rem (Object.Meta lname (optEmpty metaArg))

/-- `translation.rs::meta`. -/
def meta (input : List Char) : PRes Object :=
  match tagP ['\x7b', ':'] input with
  | none => .fail
  | some r1 =>
    let n := takeTillP (fun c => c = ':' ∨ c = '\x7d') r1
    let ar : Option (List Char) × List Char :=
      match argument n.2 with
      | some (a, r) => (some a, r)
      | none => (none, n.2)
    match tagP ['\x7d'] ar.2 with
    | none => .fail
    | some rem => metaDispatch rem (toLowerStr n.1) ar.1

/-- `translation.rs::mode_space`. -/
def mode_space (input : List Char) : PRes Object :=
  match tagNoCaseP ("\x7bmode:set_space:".toList) input with
  | none => .fail
  | some r1 =>
  match takeUntilP ['\x7d'] r1 with
  | none => .fail
  | some (space, r2) =>
  match tagP ['\x7d'] r2 with
  | none => .fail
  | some r3 =>
    .ok r3 (Object.SpaceMode (if space = [' '] then none else some space))

/-- The inner name match of `translation.rs::mode`. -/
def modeMap (lm : List Char) : Object :=
  if lm = "reset_case".toList then Object.CaseMode Case.Sentence
  else if lm = "lower".toList then Object.CaseMode Case.Lower
  else if lm = "title".toList then Object.CaseMode Case.Title
  else if lm = "caps".toList then Object.CaseMode Case.Upper
  else if lm = "camel".toList then Object.CaseMode Case.Camel
  else if lm = "snake".toList then Object.CaseMode Case.Snake
  else if lm = "reset_space".toList then Object.SpaceMode none
  else if lm = "reset".toList then Object.ResetCaseAndSpace
  else Object.RawString []

/-- `translation.rs::mode`. -/
def mode (input : List Char) : PRes Object :=
  match tagNoCaseP ("\x7bmode:".toList) input with
  | none => .fail
  | some r1 =>
  match takeUntilP ['\x7d'] r1 with
  | none => .fail
  | some (m, r2) =>
  match tagP ['\x7d'] r2 with
  | none => .fail
  | some r3 => .ok r3 (modeMap (toLowerStr m))

/-- `translation.rs::prefix_attach`. -/
def prefix_attach (input : List Char) : PRes Object :=
  match tagP ['\x7b'] input with
  | none => .fail
  | some r1 =>
  match takeUntilP ['^'] r1 with
  | none => .fail
  | some (s, r2) =>
  match tagP ['^', '\x7d'] r2 with
  | none => .fail
  | some r3 => .ok r3 ( Object.AttachPrefix s)

/-- `translation.rs::suffix_attach`. -/
def suffix_attach (input : List Char) : PRes Object :=
  match tagP ['\x7b', '^'] input with
  | none => .fail
  | some r1 =>
  match takeUntilP ['\x7d'] r1 with
  | none => .fail
  | some (s, r2) =>
  match tagP ['\x7d'] r2 with
  | none => .fail
  | some r3 => .ok r3 (Object.AttachSuffix s)

/-- `translation.rs::infix_attach`. -/
def infix_attach (input : List Char) : PRes Object :=
  match tagP ['\x7b', '^'] input with
  | none => .fail
  | some r1 =>
  match takeUntilP ['^'] r1 with
  | none => .fail
  | some (s, r2) =>
  match tagP ['^', '\x7d'] r2 with
  | none => .fail
  | some r3 =>
    if s = [' '] then .ok r3 Object.HardSpace
    else .ok r3 ( Object.AttachInfix s)

/-- `translation.rs::prefix_carry_cap`. -/
def prefix_carry_cap (input : List Char) : PRes Object :=
  match tagP ['\x7b', '~', '|'] input with
  | none => .fail
  | some r1 =>
  match takeUntilP ['^'] r1 with
  | none => .fail
  | some (s, r2) =>
  match tagP ['^', '\x7d'] r2 with
  | none => .fail
  | some r3 => .ok r3 ( Object.CarryCapPrefix s)

/-- `translation.rs::suffix_carry_cap`. -/
def suffix_carry_cap (input : List Char) : PRes Object :=
  match tagP ['\x7b', '~', '|', '^'] input with
  | none => .fail
  | some r1 =>
  match takeUntilP ['\x7d'] r1 with
  | none => .fail
  | some (s, r2) =>
  match tagP ['\x7d'] r2 with
  | none => .fail
  | some r3 => .ok r3 (Object.CarryCapSuffix s)

/-- `translation.rs::infix_carry_cap`. -/
def infix_carry_cap (input : List Char) : PRes Object :=
  match tagP ['\x7b', '~', '|', '^'] input with
  | none => .fail
  | some r1 =>
  match takeUntilP ['^'] r1 with
  | none => .fail
  | some (s, r2) =>
  match tagP ['^', '\x7d'] r2 with
  | none => .fail
  | some r3 => .ok r3 ( Object.CarryCapInfix s)

/-- `translation.rs::raw_carry_cap`. -/
def raw_carry_cap (input : List Char) : PRes Object :=
  match tagP ['\x7b', '~', '|'] input with
  | none => .fail
  | some r1 =>
  match takeUntilP ['\x7d'] r1 with
  | none => .fail
  | some (s, r2) =>
  match tagP ['\x7d'] r2 with
  | none => .fail
  | some r3 => .ok r3 (Object.CarryCapRaw s)

/-- `translation.rs::glue`. -/
def glue (input : List Char) : PRes Object :=
  match tagP ['\x7b', '&'] input with
  | none => .fail
  | some r1 =>
  match takeUntilP ['\x7d'] r1 with
  | none => .fail
  | some (s, r2) =>
  match tagP ['\x7d'] r2 with
  | none => .fail
  | some r3 => .ok r3 (Object.Fingerspell s)

/-- `translation.rs::key_combo`. -/
def key_combo (input : List Char) : PRes Object :=
  match tagP ['\x7b', '#'] input with
  | none => .fail
  | some r1 =>
  match takeUntilP ['\x7d'] r1 with
  | none => .fail
  | some (s, r2) =>
  match tagP ['\x7d'] r2 with
  | none => .fail
  | some r3 => .ok r3 (Object.KeyCombo s)

/-- The punctuation alternatives of `translation.rs::punctuation`, in source
order. -/
def puncTags : List (List Char) :=
  [['.', '.', '.'], ['-', '-'], ['-'], ['.'], [','], [':'], [';'], ['?'], ['!']]

/-- `translation.rs::punctuation`. -/
def punctuation (input : List Char) : PRes Object :=
  match tagP ['\x7b'] input with
  | none => .fail
  | some r1 =>
  match altTags puncTags r1 with
  | none => .fail
  | some (p, r2) =>
  match tagP ['\x7d'] r2 with
  | none => .fail
  | some r3 => .ok r3 (Object.Punctuation p)

/-- The operator alternatives of `translation.rs::operator`, in source
order. -/
def operTags : List (List Char) :=
  [['^'], ['-', '|'],
   ['*', '-', '|'], ['*', '+'], ['*', '?'], ['*', '!'],
   ['*', '<'], ['*', '>'], ['*'], ['<'], ['>'],
   ['|'], ['\x27'], ['l', '+'], ['l', '-']]

/-- The operator table of `translation.rs::operator`. -/
def operMap (o : List Char) : Object :=
  if o = ['^'] then Object.AttachRaw
  else if o = ['*'] then Object.RetroToggleStar
  else if o = ['*', '+'] then Object.RepeatLastStroke
  else if o = ['*', '?'] then Object.RetroInsertSpace
  else if o = ['*', '!'] then Object.RetroDeleteSpace
  else if o = ['-', '|'] ∨ o = ['l', '-'] then Object.ForceCapitalize
  else if o = ['*', '-', '|'] then Object.RetroForceCapitalize
  else if o = ['<'] then Object.ForceCapitalizeWord
  else if o = ['*', '<'] then Object.RetroForceCapitalizeWord
  else if o = ['>'] ∨ o = ['l', '+'] then Object.ForceLowercase
  else if o = ['*', '>'] then Object.RetroForceLowercase
  else Object.RawString o

/-- `translation.rs::operator`. -/
def operator (input : List Char) : PRes Object :=
  match tagP ['\x7b'] input with
  | none => .fail
  | some r1 =>
  match altTags operTags r1 with
  | none => .fail
  | some (o, r2) =>
  match tagP ['\x7d'] r2 with
  | none => .fail
  | some r3 => .ok r3 (operMap o)

/-- `translation.rs::par`. -/
def par (input : List Char) : PRes Object :=
  match tagNoCaseP ("\x7b#return\x7d\x7b#return\x7d".toList) input with
  | none => .fail
  | some r1 =>
    match tagP [' ', ' ', ' ', ' '] r1 with
    | some r2 => .ok r2 (Object.Paragraph ParagraphMode.Contin)
    | none => .ok r1 (Object.Paragraph ParagraphMode.Default)

/-- `translation.rs::currency_meta`. -/
def currency_meta (input : List Char) : PRes Object :=
  match tagP ("\x7b:retro_currency:".toList) input with
  | none => .fail
  | some r1 =>
  match takeUntilP ['c'] r1 with
  | none => .fail
  | some (pre, r2) =>
  match tagP ['c'] r2 with
  | none => .fail
  | some r3 =>
  match takeUntilP ['\x7d'] r3 with
  | none => .fail
  | some (post, r4) =>
  match tagP ['\x7d'] r4 with
  | none => .fail
  | some r5 => .ok r5 (Object.Currency (emptyToNone pre) (emptyToNone post))

/-- `translation.rs::currency`. -/
def currency (input : List Char) : PRes Object :=
  match tagP ['\x7b', '*', '('] input with
  | none => .fail
  | some r1 =>
  match takeUntilP ['c'] r1 with
  | none => .fail
  | some (pre, r2) =>
  match tagP ['c'] r2 with
  | none => .fail
  | some r3 =>
  match takeUntilP [')'] r3 with
  | none => .fail
  | some (post, r4) =>
  match tagP [')', '\x7d'] r4 with
  | none => .fail
  | some r5 => .ok r5 (Object.Currency (emptyToNone pre) (emptyToNone post))

/-- `translation.rs::anything_between_braces`. -/
def anything_between_braces (input : List Char) : PRes Object :=
  match tagP ['\x7b'] input with
  | none => .fail
  | some r1 =>
  match takeUntilP ['\x7d'] r1 with
  | none => .fail
  | some (s, r2) =>
  match tagP ['\x7d'] r2 with
  | none => .fail
  | some r3 => .ok r3 (Object.RawString s)

/-- `translation.rs::raw` (never fails; may consume nothing). -/
def raw (input : List Char) : PRes Object :=
  let t := takeTillP (fun c => c = '\x7b' ∨ c = '\\') input
  .ok t.2 (Object.RawString t.1)

/-- `translation.rs::macro_`. -/
def macroRule (input : List Char) : PRes (List Object) :=
  match tagP ['='] input with
  | none => .fail
  | some r1 =>
    let n := takeTillP (fun c => c = ':') r1
    let ar : Option (List Char) × List Char :=
      match argument n.2 with
      | some (a, r) => (some a, r)
      | none => (none, n.2)
    let lname := toLowerStr n.1
    .ok ar.2
      [if lname = "undo".toList then Object.DeleteStroke
       else if lname = "repeat_last_stroke".toList then Object.RepeatLastStroke
       else if lname = "retrospective_toggle_asterisk".toList then Object.RetroToggleStar
       else if lname = "retrospective_insert_space".toList then Object.RetroInsertSpace
       else if lname = "retrospective_delete_space".toList then Object.RetroDeleteSpace
       else Object.Macro lname (optEmpty ar.1)]

/-- The inner `alt` over carry-cap parsers in `translation.rs::rest`. -/
def carry_alt (input : List Char) : PRes Object :=
  (infix_carry_cap input).orElse fun _ =>
  (prefix_carry_cap input).orElse fun _ =>
  (suffix_carry_cap input).orElse fun _ =>
  raw_carry_cap input

/-- The inner `alt` over attach parsers in `translation.rs::rest`. -/
def attach_alt (input : List Char) : PRes Object :=
  (infix_attach input).orElse fun _ =>
  (suffix_attach input).orElse fun _ =>
  prefix_attach input

/-- The ordered alternative of `translation.rs::rest`, in source order. -/
def altPlover (input : List Char) : PRes Object :=
  (escaped input).orElse fun _ =>
  (spaces input).orElse fun _ =>
  (cancel input).orElse fun _ =>
  (noop input).orElse fun _ =>
  (par input).orElse fun _ =>
  (command input).orElse fun _ =>
  (mode_space input).orElse fun _ =>
  (mode input).orElse fun _ =>
  (glue input).orElse fun _ =>
  (currency input).orElse fun _ =>
  (currency_meta input).orElse fun _ =>
  (key_combo input).orElse fun _ =>
  (punctuation input).orElse fun _ =>
  (operator input).orElse fun _ =>
  (meta input).orElse fun _ =>
  (carry_alt input).orElse fun _ =>
  (attach_alt input).orElse fun _ =>
  (anything_between_braces input).orElse fun _ =>
  raw input

/-- Fuel-indexed form of `translation.rs::rest`.

The Rust function recurses through `opt(rest)` on the input left over by the
chosen alternative.  Every alternative returns a suffix of its input; when
that suffix is the whole input (no progress), the recursive call receives an
identical argument and the program recurses forever, which the model reports
as `.diverge`.  When the alternative makes progress the input shrinks, so a
fuel of `input.length + 1` can never be exhausted (see `rest`). -/
def restF : Nat → List Char → RRes
  | 0, _ => .diverge
  | fuel + 1, input =>
    if input = [] then .ok [] []
    else
      match altPlover input with
      | .panic => .panic
      | .fail => .fail
      | .ok rem first =>
        if rem.length < input.length then
          match restF fuel rem with
          | .diverge => .diverge
          | .panic => .panic
          | .fail => .ok rem [first]
          | .ok rem2 more => .ok rem2 (first :: more)
        else .diverge

/-- `translation.rs::rest`. -/
def rest (input : List Char) : RRes := restF (input.length + 1) input

/-- `translation.rs::parse_translation`: `alt((macro_, rest))`, dropping any
leftover input, and degrading a parse failure to the empty sequence. -/
def parse_translation (input : List Char) : ParseOut :=
  match macroRule input with
  | .ok _ objs => .ok objs
  | .panic => .panic
  | .fail =>
    match rest input with
    | .ok _ objs => .ok objs
    | .fail => .ok []
    | .panic => .panic
    | .diverge => .diverge

end Plover

end Rtfcre

namespace Rtfcre

/-- Character escaping of `RawString` payloads in
`translation.rs::format_plover_to_rtf`, in the source's match order. -/
def escRtfChar (c : Char) : List Char :=
  if c = '\x7b' ∨ c = '\x7d' ∨ c = '\\' then ['\\', c]
  else if c = '-' then ['\\', '_']
  else if c = '\n' then ['\\', 'n']
  else if c = '\t' then ['\\', 't']
  else if 255 < c.toNat then ['\\', 'u'] ++ natDecimal c.toNat ++ [' ']
  else [c]

/-- The per-directive rendering of `translation.rs::format_plover_to_rtf`. -/
def renderRtfObj : Object → List Char
  | Object.RawString s => s.flatMap escRtfChar
  | Object.Command n none => "\x7b\\*\\cxplvrcmd ".toList ++ n ++ ['\x7d']
  | Object.Command n (some a) =>
      "\x7b\\*\\cxplvrcmd ".toList ++ n ++ [':'] ++ a ++ ['\x7d']
  | Object.Meta n none => "\x7b\\*\\cxplvrmeta ".toList ++ n ++ ['\x7d']
  | Object.Meta n (some a) =>
      "\x7b\\*\\cxplvrmeta ".toList ++ n ++ [':'] ++ a ++ ['\x7d']
  | Object.Macro n none => "\x7b\\*\\cxplvrmac ".toList ++ n ++ ['\x7d']
  | Object.Macro n (some a) =>
      "\x7b\\*\\cxplvrmac ".toList ++ n ++ [':'] ++ a ++ ['\x7d']
  | Object.Punctuation p => "\x7b\\cxp".toList ++ p ++ [' ', '\x7d']
  | Object.SpaceMode (some x) =>
      if x = [' '] then "\x7b\x7b\\*\\cxplvrspc0\x7d".toList
      else "\x7b\\*\\cxplvrspc ".toList ++ x ++ ['\x7d']
  | Object.KeyCombo k => "\x7b\\*\\cxplvrkey ".toList ++ rustTrim k ++ ['\x7d']
  | Object.Fingerspell s => "\x7b\\cxfing ".toList ++ s ++ ['\x7d']
  | Object.Stitch s => "\x7b\\cxstit ".toList ++ s ++ ['\x7d']
  | Object.AttachSuffix s => "\x7b\\*\\cxplvrortho\x7d\\cxds ".toList ++ s
  | Object.AttachPrefix s =>
      "\x7b\\*\\cxplvrortho\x7d".toList ++ s ++ "\\cxds ".toList
  | Object.AttachInfix s =>
      "\x7b\\*\\cxplvrortho\x7d\\cxds ".toList ++ s ++ "\\cxds ".toList
  | Object.CarryCapRaw s => "\x7b\\*\\cxplvrccap\x7d".toList ++ s
  | Object.CarryCapSuffix s => "\x7b\\*\\cxplvrccap\x7d\\cxds ".toList ++ s
  | Object.CarryCapPrefix s =>
      "\x7b\\*\\cxplvrccap\x7d".toList ++ s ++ "\\cxds ".toList
  | Object.CarryCapInfix s =>
      "\x7b\\*\\cxplvrccap\x7d\\cxds ".toList ++ s ++ "\\cxds ".toList
  | Object.Currency l r =>
      "\x7b\\*\\cxplvrcurr ".toList ++ l.getD [] ++ ['c'] ++ r.getD [] ++ ['\x7d']
  | Object.Noop => "\x7b\\*\\cxplvrnop\x7d".toList
  | Object.Cancel => "\x7b\\*\\cxplvrcancel\x7d".toList
  | Object.DeleteStroke => "\\cxdstroke ".toList
  | Object.RepeatLastStroke => "\x7b\\*\\cxplvrrpt\x7d".toList
  | Object.RetroToggleStar => "\x7b\\*\\cxplvrast\x7d".toList
  | Object.RetroInsertSpace => "\x7b\\*\\cxplvrrtisp\x7d".toList
  | Object.RetroDeleteSpace => "\x7b\\*\\cxplvrrtdsp\x7d".toList
  | Object.ForceCapitalize => "\\cxfc ".toList
  | Object.RetroForceCapitalize => "\x7b\\*\\cxplvrrtfc\x7d".toList
  | Object.ForceCapitalizeWord => "\x7b\\*\\cxplvrfcw\x7d".toList
  | Object.RetroForceCapitalizeWord => "\x7b\\*\\cxplvrrtfcw\x7d".toList
  | Object.ForceLowercase => "\\cxfl ".toList
  | Object.RetroForceLowercase => "\x7b\\*\\cxplvrrtfl\x7d".toList
  | Object.CaseMode Case.Sentence => "\x7b\\*\\cxplvrcase0\x7d".toList
  | Object.CaseMode Case.Lower => "\x7b\\*\\cxplvrcase1\x7d".toList
  | Object.CaseMode Case.Upper => "\x7b\\*\\cxplvrcase2\x7d".toList
  | Object.CaseMode Case.Title => "\x7b\\*\\cxplvrcase3\x7d".toList
  | Object.CaseMode Case.Camel => "\x7b\\*\\cxplvrcase4\\cxplvrspc\x7d".toList
  | Object.CaseMode Case.Snake =>
      "\x7b\\*\\cxplvrcase0\\cxplvrspc _\x7d".toList
  | Object.SpaceMode none => "\x7b\\*\\cxplvrspc0\x7d".toList
  | Object.ResetCaseAndSpace => "\x7b\\*\\cxplvrcase0\\cxplvrspc0\x7d".toList
  | Object.AttachRaw => "\\cxds ".toList
  | Object.Paragraph ParagraphMode.Default => "\\par\\s0 ".toList
  | Object.Paragraph ParagraphMode.Contin => "\\par\\s1 ".toList
  | Object.Space => [' ']
  | Object.HardSpace => ['\\', '~']
  | Object.OrthoAttach => []

/-- `translation.rs::format_plover_to_rtf`. -/
def format_plover_to_rtf (input : List Char) : Out :=
  match Plover.parse_translation input with
  | .panic => .panic
  | .diverge => .diverge
  | .ok objs => .ok (objs.flatMap renderRtfObj)

end Rtfcre

namespace Rtfcre

namespace Rtf

/-- `translation_parse.rs::number`: `recognize(opt(tag("-")), digit1)` then
`parse::<i32>().unwrap()`; the unwrap panics outside the i32 range. -/
def number (input : List Char) : PRes Int :=
  match tagP ['-'] input with
  | some r1 =>
    (match takeWhile1P isAsciiDigit r1 with
     | none => .fail
     | some (ds, r2) =>
       let v : Int := -(digitsVal ds : Int)
       if -(2 ^ 31) ≤ v then .ok r2 v else .panic)
  | none =>
    match takeWhile1P isAsciiDigit input with
    | none => .fail
    | some (ds, r2) =>
      let v : Int := (digitsVal ds : Int)
      if v ≤ 2 ^ 31 - 1 then .ok r2 v else .panic

/-- `translation_parse.rs::positive_number`: `digit1` then
`parse::<u32>().unwrap()`; the unwrap panics outside the u32 range. -/
def positive_number (input : List Char) : PRes Nat :=
  match takeWhile1P isAsciiDigit input with
  | none => .fail
  | some (ds, r2) =>
    if digitsVal ds < 2 ^ 32 then .ok r2 (digitsVal ds) else .panic

/-- `translation_parse.rs::long_group`. -/
def long_group (input : List Char) : PRes Object :=
  match tagP ("\x7b\\*\\cxplvrcase0\\cxplvrspc0\x7d".toList) input with
  | some rem => .ok rem Object.ResetCaseAndSpace
  | none =>
  match tagP ("\x7b\\*\\cxplvrcase4\\cxplvrspc\x7d".toList) input with
  | some rem => .ok rem (Object.CaseMode Case.Camel)
  | none =>
  match tagP ("\x7b\\*\\cxplvrcase0\\cxplvrspc _\x7d".toList) input with
  | some rem => .ok rem (Object.CaseMode Case.Snake)
  | none => .fail

/-- The label table of `translation_parse.rs::no_arg_group`. -/
def noArgLabel (label : List Char) (num : Option Int) : Object :=
  if label = "cxplvrnop".toList then Object.Noop
  else if label = "cxplvrcancel".toList then Object.Cancel
  else if label = "cxplvrast".toList then Object.RetroToggleStar
  else if label = "cxplvrrpt".toList then Object.RepeatLastStroke
  else if label = "cxplvrrtisp".toList then Object.RetroInsertSpace
  else if label = "cxplvrrtdsp".toList then Object.RetroDeleteSpace
  else if label = "cxplvrcase".toList then
    Object.CaseMode
      (if num = some 0 then Case.Sentence
       else if num = some 1 then Case.Lower
       else if num = some 2 then Case.Upper
       else if num = some 3 then Case.Title
       else Case.Sentence)
  else if label = "cxplvrccap".toList then Object.CarryCapRaw []
  else if label = "cxplvrrtfc".toList then Object.RetroForceCapitalize
  else if label = "cxplvrrtfl".toList then Object.RetroForceLowercase
  else if label = "cxplvrfcw".toList then Object.ForceCapitalizeWord
  else if label = "cxplvrrtfcw".toList then Object.RetroForceCapitalizeWord
  else if label = "cxplvrspc".toList then Object.SpaceMode none
  else if label = "cxplvrortho".toList then Object.OrthoAttach
  else Object.RawString []

/-- `recognize(tuple((tag("cxplvr"), alpha1)))`: the label of a
`\cxplvr…` control word.  Returns (label, remaining). -/
def cxplvrLabel (input : List Char) : Option (List Char × List Char) :=
  match tagP ("cxplvr".toList) input with
  | none => none
  | some r1 =>
    match takeWhile1P isAsciiAlpha r1 with
    | none => none
    | some (letters, r2) => some ("cxplvr".toList ++ letters, r2)

/-- `translation_parse.rs::no_arg_group`. -/
def no_arg_group (input : List Char) : PRes Object :=
  match tagP ['\x7b', '\\', '*', '\\'] input with
  | none => .fail
  | some r1 =>
  match cxplvrLabel r1 with
  | none => .fail
  | some (label, r2) =>
  match number r2 with
  | .panic => .panic
  | .ok r3 n =>
    (match tagP ['\x7d'] r3 with
     | none => .fail
     | some r4 => .ok r4 (noArgLabel label (some n)))
  | .fail =>
    match tagP ['\x7d'] r2 with
    | none => .fail
    | some r4 => .ok r4 (noArgLabel label none)

/-- The `object!` macro of `translation_parse.rs::arg_group`: split the
argument at the first `:` when present. -/
def argSplit (arg : List Char) : List Char × Option (List Char) :=
  if arg.contains ':' then
    match splitFirst ':' arg with
    | some (p0, p1) => (p0, some p1)
    | none => (arg, none)
  else (arg, none)

/-- The label table of `translation_parse.rs::arg_group`. -/
def argLabel (label : List Char) (arg : List Char) : Object :=
  if label = "cxplvrmeta".toList then
    Object.Meta (argSplit arg).1 (argSplit arg).2
  else if label = "cxplvrmac".toList then
    Object.Macro (argSplit arg).1 (argSplit arg).2
  else if label = "cxplvrcmd".toList then
    Object.Command (argSplit arg).1 (argSplit arg).2
  else if label = "cxplvrspc".toList then Object.SpaceMode (some arg)
  else if label = "cxplvrkey".toList then Object.KeyCombo arg
  else if label = "cxplvrcurr".toList then
    (if arg.contains 'c' then
      match splitFirst 'c' arg with
      | some (p0, p1) => Object.Currency (emptyToNone p0) (emptyToNone p1)
      | none => Object.RawString []
     else Object.RawString [])
  else Object.RawString []

/-- `translation_parse.rs::arg_group`. -/
def arg_group (input : List Char) : PRes Object :=
  match tagP ['\x7b', '\\', '*', '\\'] input with
  | none => .fail
  | some r1 =>
  match cxplvrLabel r1 with
  | none => .fail
  | some (label, r2) =>
  match number r2 with
  | .panic => .panic
  | .ok r3 _ =>
    (match tagP [' '] r3 with
     | none => .fail
     | some r4 =>
       match takeUntilP ['\x7d'] r4 with
       | none => .fail
       | some (arg, r5) =>
         match tagP ['\x7d'] r5 with
         | none => .fail
         | some r6 => .ok r6 (argLabel label arg))
  | .fail =>
    match tagP [' '] r2 with
    | none => .fail
    | some r4 =>
      match takeUntilP ['\x7d'] r4 with
      | none => .fail
      | some (arg, r5) =>
        match tagP ['\x7d'] r5 with
        | none => .fail
        | some r6 => .ok r6 (argLabel label arg)

/-- `translation_parse.rs::punc_group`.  The Rust code slices
`punct[..punct.len() - 1]` in bytes: it panics when `punct` is empty
(index underflow) and when the final character is not a single UTF-8 byte
(slice not on a character boundary). -/
def punc_group (input : List Char) : PRes Object :=
  match tagP ("\x7b\\cxp".toList) input with
  | none => .fail
  | some r1 =>
    let r1' := match tagP [' '] r1 with
      | some r => r
      | none => r1
    match takeUntilP ['\x7d'] r1' with
    | none => .fail
    | some (punct, r2) =>
    match tagP ['\x7d'] r2 with
    | none => .fail
    | some r3 =>
      match punct.getLast? with
      | none => .panic
      | some c =>
        if c.toNat ≤ 127 then .ok r3 (Object.Punctuation punct.dropLast)
        else .panic

/-- `translation_parse.rs::fing_group`. -/
def fing_group (input : List Char) : PRes Object :=
  match tagP ("\x7b\\cxfing ".toList) input with
  | none => .fail
  | some r1 =>
  match takeUntilP ['\x7d'] r1 with
  | none => .fail
  | some (s, r2) =>
  match tagP ['\x7d'] r2 with
  | none => .fail
  | some r3 => .ok r3 (Object.Fingerspell s)

/-- `translation_parse.rs::cxc_group`. -/
def cxc_group (input : List Char) : Option (List Char × List Char) :=
  match tagP ("\x7b\\cxc ".toList) input with
  | none => none
  | some r1 =>
  match takeUntilP ['\x7d'] r1 with
  | none => none
  | some (s, r2) =>
  match tagP ['\x7d'] r2 with
  | none => none
  | some r3 => some (s, r3)

/-- The loop of `separated_list1(tag("|"), cxc_group)` after the first
element: keep consuming `|` + element; stop (without consuming the
separator) as soon as either fails.  Each iteration consumes at least one
character, so fuel `input.length` suffices. -/
def sepCxcAux : Nat → List Char → List (List Char) → List (List Char) × List Char
  | 0, input, acc => (acc.reverse, input)
  | fuel + 1, input, acc =>
    match tagP ['|'] input with
    | none => (acc.reverse, input)
    | some r1 =>
      match cxc_group r1 with
      | none => (acc.reverse, input)
      | some (x, r2) => sepCxcAux fuel r2 (x :: acc)

/-- `translation_parse.rs::conf_group`. -/
def conf_group (input : List Char) : PRes Object :=
  match tagP ("\x7b\\cxconf [".toList) input with
  | none => .fail
  | some r1 =>
  match cxc_group r1 with
  | none => .fail
  | some (first, r2) =>
    let rest := sepCxcAux r2.length r2 []
    match tagP [']', '\x7d'] rest.2 with
    | none => .fail
    | some r3 => .ok r3 (Object.RawString ((first :: rest.1).getLast (by simp)))

/-- `translation_parse.rs::stit_group`. -/
def stit_group (input : List Char) : PRes Object :=
  match tagP ("\x7b\\cxstit ".toList) input with
  | none => .fail
  | some r1 =>
  match takeUntilP ['\x7d'] r1 with
  | none => .fail
  | some (s, r2) =>
  match tagP ['\x7d'] r2 with
  | none => .fail
  | some r3 => .ok r3 (Object.Stitch s)

/-- `translation_parse.rs::par`. -/
def par (input : List Char) : PRes Object :=
  match tagP ['\\', 'p', 'a', 'r', '\\', 's'] input with
  | none => .fail
  | some r1 =>
  match number r1 with
  | .fail => .fail
  | .panic => .panic
  | .ok r2 n =>
    let r3 := match tagP [' '] r2 with
      | some r => r
      | none => r2
    .ok r3 (Object.Paragraph
      (if n = 1 then ParagraphMode.Contin else ParagraphMode.Default))

/-- `translation_parse.rs::dstroke`. -/
def dstroke (input : List Char) : PRes Object :=
  match tagP ("\\cxdstroke".toList) input with
  | none => .fail
  | some r1 =>
    let r2 := match tagP [' '] r1 with
      | some r => r
      | none => r1
    .ok r2 Object.DeleteStroke

/-- `translation_parse.rs::fl_fc`. -/
def fl_fc (input : List Char) : PRes Object :=
  match tagP ['\\', 'c', 'x', 'f'] input with
  | none => .fail
  | some r1 =>
  match altTags [['l'], ['c']] r1 with
  | none => .fail
  | some (m, r2) =>
    let r3 := match tagP [' '] r2 with
      | some r => r
      | none => r2
    if m = ['l'] then .ok r3 Object.ForceLowercase
    else if m = ['c'] then .ok r3 Object.ForceCapitalize
    else .ok r3 (Object.RawString [])

/-- `translation_parse.rs::dspace`. -/
def dspace (input : List Char) : PRes Object :=
  match tagP ("\\cxds".toList) input with
  | none => .fail
  | some r1 =>
    let r2 := match tagP [' '] r1 with
      | some r => r
      | none => r1
    .ok r2 Object.AttachRaw

/-- `translation_parse.rs::unicode`: `from_u32(n).unwrap()` panics on
surrogate code points and on values above 0x10FFFF. -/
def unicode (input : List Char) : PRes Object :=
  match tagP ['\\', 'u'] input with
  | none => .fail
  | some r1 =>
  match positive_number r1 with
  | .fail => .fail
  | .panic => .panic
  | .ok r2 n =>
    let r3 := match tagP [' '] r2 with
      | some r => r
      | none => r2
    if n < 55296 ∨ (57343 < n ∧ n < 1114112) then
      .ok r3 (Object.RawString [Char.ofNat n])
    else .panic

/-- `translation_parse.rs::hyphen`. -/
def hyphen (input : List Char) : PRes Object :=
  match tagP ['\\', '_'] input with
  | none => .fail
  | some rem => .ok rem (Object.RawString ['-'])

/-- `translation_parse.rs::escaped`. -/
def escaped (input : List Char) : PRes Object :=
  match tagP ['\\'] input with
  | none => .fail
  | some r1 =>
  match altTags [['\\'], ['\x7b'], ['\x7d'], ['~'], ['_']] r1 with
  | none => .fail
  | some (c, r2) =>
    if c = ['~'] then .ok r2 Object.HardSpace
    else if c = ['_'] then .ok r2 (Object.RawString ['-'])
    else .ok r2 (Object.RawString (['\\'] ++ c))

/-- `translation_parse.rs::newline`. -/
def newline (input : List Char) : PRes Object :=
  match tagP ['\\'] input with
  | none => .fail
  | some r1 =>
  match altTags [['n'], ['t']] r1 with
  | none => .fail
  | some (c, r2) => .ok r2 (Object.RawString (['\\'] ++ c))

/-- `translation_parse.rs::plain_text` (never fails; may consume nothing). -/
def plain_text (input : List Char) : PRes Object :=
  let t := takeWhileP (fun c => ¬(c = '\\' ∨ c = '\x7b')) input
  .ok t.2 (Object.RawString t.1)

/-- The ordered alternative of `translation_parse.rs::objects`, in source
order. -/
def altRtf (input : List Char) : PRes Object :=
  (long_group input).orElse fun _ =>
  (arg_group input).orElse fun _ =>
  (no_arg_group input).orElse fun _ =>
  (punc_group input).orElse fun _ =>
  (fing_group input).orElse fun _ =>
  (stit_group input).orElse fun _ =>
  (conf_group input).orElse fun _ =>
  (par input).orElse fun _ =>
  (dstroke input).orElse fun _ =>
  (fl_fc input).orElse fun _ =>
  (dspace input).orElse fun _ =>
  (escaped input).orElse fun _ =>
  (hyphen input).orElse fun _ =>
  (unicode input).orElse fun _ =>
  (newline input).orElse fun _ =>
  plain_text input

/-- Fuel-indexed form of `translation_parse.rs::objects`; the divergence
analysis is identical to `Plover.restF`. -/
def objectsF : Nat → List Char → RRes
  | 0, _ => .diverge
  | fuel + 1, input =>
    if input = [] then .ok [] []
    else
      match altRtf input with
      | .panic => .panic
      | .fail => .fail
      | .ok rem first =>
        if rem.length < input.length then
          match objectsF fuel rem with
          | .diverge => .diverge
          | .panic => .panic
          | .fail => .ok rem [first]
          | .ok rem2 more => .ok rem2 (first :: more)
        else .diverge

/-- `translation_parse.rs::objects`. -/
def objects (input : List Char) : RRes := objectsF (input.length + 1) input

/-- `translation_parse.rs::parse_translation`. -/
def parse_translation (input : List Char) : ParseOut :=
  match objects input with
  | .ok _ objs => .ok objs
  | .fail => .ok []
  | .panic => .panic
  | .diverge => .diverge

end Rtf

end Rtfcre

namespace Rtfcre

/-- One anchored rewrite of `translation_parse.rs::fix_attach`: the regex
`^PRE([^\x7b]+?)SUF$` replaced by `RPRE$1RSUF`.  With both anchors present
and the group forbidden to contain an opening brace, a match exists exactly
when the string is `PRE ++ mid ++ SUF` for a nonempty `mid` without `\x7b`,
and that decomposition is unique; `Regex::replace` then rewrites the whole
string and otherwise leaves it unchanged. -/
def fixRule (pre suf rpre rsuf : List Char) (s : List Char) : List Char :=
  if pre.isPrefixOf s then
    let rest := s.drop pre.length
    if suf.length ≤ rest.length ∧ rest.drop (rest.length - suf.length) = suf then
      let mid := rest.take (rest.length - suf.length)
      if mid ≠ [] ∧ ¬ mid.contains '\x7b' then rpre ++ mid ++ rsuf else s
    else s
  else s

/-- `translation_parse.rs::fix_attach`: the seven anchored rewrites, applied
innermost-first in the source's nesting order (INFIX, PREFIX, SUFFIX,
CARRY_CAP_INFIX, CARRY_CAP_PREFIX, CARRY_CAP_SUFFIX, CARRY_CAP). -/
def fix_attach (tl : List Char) : List Char :=
  fixRule ("\x7b~|\x7d".toList) [] ("\x7b~|".toList) ['\x7d']
    (fixRule ("\x7b~|\x7d\x7b^\x7d".toList) [] ("\x7b~|^".toList) ['\x7d']
      (fixRule ("\x7b~|\x7d".toList) ("\x7b^\x7d".toList)
          ("\x7b~|".toList) ['^', '\x7d']
        (fixRule ("\x7b~|\x7d\x7b^\x7d".toList) ("\x7b^\x7d".toList)
            ("\x7b~|^".toList) ['^', '\x7d']
          (fixRule ("\x7b^\x7d".toList) [] ("\x7b^".toList) ['\x7d']
            (fixRule [] ("\x7b^\x7d".toList) ['\x7b'] ['^', '\x7d']
              (fixRule ("\x7b^\x7d".toList) ("\x7b^\x7d".toList)
                  ("\x7b^".toList) ['^', '\x7d']
                tl))))))

/-- The per-directive rendering of
`translation_parse.rs::format_rtf_to_plover`. -/
def renderPloverObj : Object → List Char
  | Object.Paragraph m =>
      "\x7b#return\x7d\x7b#return\x7d".toList ++
        (match m with
         | ParagraphMode.Default => []
         | ParagraphMode.Contin => "    ".toList)
  | Object.Fingerspell s => ['\x7b', '&'] ++ s ++ ['\x7d']
  | Object.Stitch s => "\x7b:stitch:".toList ++ s ++ ['\x7d']
  | Object.Command c (some a) =>
      "\x7bplover:".toList ++ c ++ [':'] ++ a ++ ['\x7d']
  | Object.Command c none => "\x7bplover:".toList ++ c ++ ['\x7d']
  | Object.Meta m (some a) => ['\x7b', ':'] ++ m ++ [':'] ++ a ++ ['\x7d']
  | Object.Meta m none => ['\x7b', ':'] ++ m ++ ['\x7d']
  | Object.Macro m (some a) => ['='] ++ m ++ [':'] ++ a
  | Object.Macro m none => ['='] ++ m
  | Object.Currency l r =>
      "\x7b*(".toList ++ l.getD [] ++ ['c'] ++ r.getD [] ++ [')', '\x7d']
  | Object.Punctuation p => ['\x7b'] ++ p ++ ['\x7d']
  | Object.KeyCombo k => ['\x7b', '#'] ++ k ++ ['\x7d']
  | Object.CaseMode m =>
      "\x7bmode:".toList ++
        (match m with
         | Case.Sentence => "reset_case".toList
         | Case.Lower => "lower".toList
         | Case.Upper => "caps".toList
         | Case.Title => "title".toList
         | Case.Camel => "camel".toList
         | Case.Snake => "snake".toList) ++ ['\x7d']
  | Object.SpaceMode (some s) => "\x7bmode:set_space:".toList ++ s ++ ['\x7d']
  | Object.Cancel => ['\x7b', '\x7d']
  | Object.Noop => ['\x7b', '#', '\x7d']
  | Object.DeleteStroke => "=undo".toList
  | Object.RepeatLastStroke => "\x7b*+\x7d".toList
  | Object.RetroToggleStar => "\x7b*\x7d".toList
  | Object.RetroInsertSpace => "\x7b*?\x7d".toList
  | Object.RetroDeleteSpace => "\x7b*!\x7d".toList
  | Object.HardSpace => "\x7b^ ^\x7d".toList
  | Object.RawString s => s
  | Object.ResetCaseAndSpace => "\x7bmode:reset\x7d".toList
  | Object.SpaceMode none => "\x7bmode:reset_space\x7d".toList
  | Object.AttachRaw => "\x7b^\x7d".toList
  | Object.OrthoAttach => []
  | Object.CarryCapRaw _ => "\x7b~|\x7d".toList
  | Object.ForceCapitalize => "\x7b-|\x7d".toList
  | Object.ForceLowercase => "\x7b>\x7d".toList
  | Object.RetroForceCapitalize => "\x7b*-|\x7d".toList
  | Object.RetroForceLowercase => "\x7b*>\x7d".toList
  | Object.ForceCapitalizeWord => "\x7b<\x7d".toList
  | Object.RetroForceCapitalizeWord => "\x7b*<\x7d".toList
  | _ => []

/-- `translation_parse.rs::format_rtf_to_plover`: render every directive (an
`OrthoAttach` renders as the empty string but raises the `ortho_attach`
flag), then run `fix_attach` exactly when the flag was raised. -/
def format_rtf_to_plover (input : List Char) : Out :=
  match Rtf.parse_translation input with
  | .panic => .panic
  | .diverge => .diverge
  | .ok objs =>
    let items := objs.flatMap renderPloverObj
    if Object.OrthoAttach ∈ objs then .ok (fix_attach items) else .ok items

end Rtfcre

namespace Rtfcre

/-- `dict.rs::EntryMetadata` + `Entry` (the steno key is stored separately
as the map key; it is repeated inside the entry as in the source). -/
structure DEntry where
  steno : String
  translation : String
  comment : Option String
deriving DecidableEq

/-- Association-list lookup (first match), modelling map `get`. -/
def alLookup {β : Type} : List (String × β) → String → Option β
  | [], _ => none
  | (k, v) :: t, key => if k = key then some v else alLookup t key

/-- `LinkedHashMap::insert`: replace the value of an existing key in place,
otherwise append the new binding at the end (insertion order). -/
def alInsert {β : Type} : List (String × β) → String → β → List (String × β)
  | [], key, v => [(key, v)]
  | (k, w) :: t, key, v =>
    if k = key then (key, v) :: t else (k, w) :: alInsert t key v

/-- `HashMap::get_mut` followed by a mutation: apply `f` to the value at
`key` (first binding), leaving the rest unchanged. -/
def alUpdate {β : Type} : List (String × β) → String → (β → β) → List (String × β)
  | [], _, _ => []
  | (k, w) :: t, key, f =>
    if k = key then (key, f w) :: t else (k, w) :: alUpdate t key f

/-- `HashMap::remove`: drop the binding of `key`. -/
def alErase {β : Type} (l : List (String × β)) (key : String) : List (String × β) :=
  l.filter (fun kv => kv.1 ≠ key)

/-- `HashSet::insert` on a duplicate-free list. -/
def setInsert (s : List String) (x : String) : List String :=
  if x ∈ s then s else x :: s

/-- `HashSet::remove`. -/
def setRemove (s : List String) (x : String) : List String :=
  s.filter (fun y => y ≠ x)

/-- `dict.rs::Dictionary` (the `cre_system` label is irrelevant to the
claims and omitted). -/
structure Dict where
  entries : List (String × DEntry)
  reverse_entries : List (String × List String)
  longest_key : Nat
deriving DecidableEq

/-- `Dictionary::new`. -/
def Dict.empty : Dict := ⟨[], [], 0⟩

/-- The number of `/` characters in a steno key
(`steno.chars().filter(|c| *c == '/').count()`). -/
def slashCount (steno : String) : Nat :=
  (steno.toList.filter (fun c => c = '/')).length

/-- `dict.rs::Dictionary::add_entry`. -/
def Dict.add_entry (d : Dict) (steno translation : String)
    (comment : Option String) : Dict :=
  let rev1 :=
    match alLookup d.entries steno with
    | some old => alUpdate d.reverse_entries old.translation
        (fun set => setRemove set steno)
    | none => d.reverse_entries
  let entries1 := alInsert d.entries steno ⟨steno, translation, comment⟩
  let kl := slashCount steno
  let longest1 := if kl > d.longest_key then kl else d.longest_key
  let rev2 :=
    match alLookup rev1 translation with
    | some _ => alUpdate rev1 translation (fun set => setInsert set steno)
    | none => rev1 ++ [(translation, [steno])]
  ⟨entries1, rev2, longest1⟩

/-- `dict.rs::Dictionary::remove_entry`. -/
def Dict.remove_entry (d : Dict) (steno : String) : Dict :=
  match alLookup d.entries steno with
  | none => d
  | some e =>
    let rev1 :=
      match alLookup d.reverse_entries e.translation with
      | some set =>
        let s' := setRemove set steno
        if s' = [] then alErase d.reverse_entries e.translation
        else alUpdate d.reverse_entries e.translation (fun _ => s')
      | none => d.reverse_entries
    ⟨alErase d.entries steno, rev1, d.longest_key⟩

/-- `dict.rs::Dictionary::lookup`. -/
def Dict.lookup (d : Dict) (steno : String) : Option String :=
  (alLookup d.entries steno).map DEntry.translation

/-- `dict.rs::Dictionary::rev_lookup` (`Some` exactly when the reverse map
has a binding, possibly the empty set; membership is what matters). -/
def Dict.rev_lookup (d : Dict) (translation : String) : Option (List String) :=
  alLookup d.reverse_entries translation

/-- A dictionary mutation, for stating invariants over arbitrary operation
sequences. -/
inductive DictOp : Type where
  | add (steno translation : String) (comment : Option String)
  | remove (steno : String)
deriving DecidableEq

/-- Apply a sequence of mutations starting from `d`. -/
def applyOps (d : Dict) : List DictOp → Dict
  | [] => d
  | DictOp.add s t c :: ops => applyOps (d.add_entry s t c) ops
  | DictOp.remove s :: ops => applyOps (d.remove_entry s) ops

/-- The quantity the specification claims `longest_key` tracks: the maximum
number of `/`-separated components over the stored keys (0 when empty). -/
def specLongest (d : Dict) : Nat :=
  (d.entries.map (fun kv => slashCount kv.1 + 1)).foldr max 0

/-- What `longest_key` actually tracks: the running maximum of the slash
counts of every key ever passed to `add_entry`. -/
def addSlashMax (ops : List DictOp) : Nat :=
  ops.foldl
    (fun m op =>
      match op with
      | DictOp.add s _ _ => max m (slashCount s)
      | DictOp.remove _ => m) 0

end Rtfcre

namespace Rtfcre

/-- The payload-free directives (other than `Space` and `OrthoAttach`) that
both parsers can produce; used for the amended round-trip claim. -/
def nullaryDirectives : List Object :=
  [Object.Cancel, Object.Noop, Object.DeleteStroke, Object.RepeatLastStroke,
   Object.RetroToggleStar, Object.RetroInsertSpace, Object.RetroDeleteSpace,
   Object.HardSpace,
   Object.Paragraph ParagraphMode.Default, Object.Paragraph ParagraphMode.Contin,
   Object.CaseMode Case.Sentence, Object.CaseMode Case.Lower,
   Object.CaseMode Case.Upper, Object.CaseMode Case.Title,
   Object.CaseMode Case.Camel, Object.CaseMode Case.Snake,
   Object.SpaceMode none, Object.ResetCaseAndSpace, Object.AttachRaw,
   Object.ForceCapitalize, Object.ForceLowercase,
   Object.RetroForceCapitalize, Object.RetroForceLowercase,
   Object.ForceCapitalizeWord, Object.RetroForceCapitalizeWord]

end Rtfcre

namespace Rtfcre

/-- The reverse-index consistency invariant of `dict.rs::Dictionary`: a
steno key is stored with translation `t` exactly when it belongs to the
set the reverse index holds for `t`. -/
def DictInv (d : Dict) : Prop :=
  ∀ s t : String, d.lookup s = some t ↔ ∃ l, d.rev_lookup t = some l ∧ s ∈ l

end Rtfcre

namespace Rtfcre

theorem tagP_cons_ne {p c : Char} {ps cs : List Char} (h : p ≠ c) :
    tagP (p :: ps) (c :: cs) = none := by
  simp [tagP, h]

theorem lowerChar_eq_lbrace_iff {c : Char} : lowerChar c = '\x7b' ↔ c = '\x7b' := by
  constructor
  · intro h
    unfold lowerChar at h
    split at h
    · exfalso
      rename_i hb
      obtain ⟨h1, h2⟩ := hb
      set n := c.toNat with hn
      interval_cases n <;> exact absurd h (by decide)
    · exact h
  · intro h
    subst h
    decide

theorem tagNoCaseP_cons_lbrace {ps cs : List Char} {c : Char} (h : c ≠ '\x7b') :
    tagNoCaseP ('\x7b' :: ps) (c :: cs) = none := by
  have hl : lowerChar '\x7b' = '\x7b' := by decide
  simp only [tagNoCaseP, hl]
  rw [if_neg]
  intro he
  exact h (lowerChar_eq_lbrace_iff.1 he.symm)

theorem escaped_fail {c : Char} {cs : List Char} (h : c ≠ '\\') :
    Plover.escaped (c :: cs) = .fail := by
  simp [Plover.escaped, tagP_cons_ne (Ne.symm h)]

theorem spaces_fail {c : Char} {cs : List Char} (h : c ≠ '\x7b') :
    Plover.spaces (c :: cs) = .fail := by
  simp [Plover.spaces, tagP_cons_ne (Ne.symm h)]

theorem cancel_fail {c : Char} {cs : List Char} (h : c ≠ '\x7b') :
    Plover.cancel (c :: cs) = .fail := by
  simp [Plover.cancel, tagP_cons_ne (Ne.symm h)]

theorem noop_fail {c : Char} {cs : List Char} (h : c ≠ '\x7b') :
    Plover.noop (c :: cs) = .fail := by
  simp [Plover.noop, tagP_cons_ne (Ne.symm h)]

theorem par_fail {c : Char} {cs : List Char} (h : c ≠ '\x7b') :
    Plover.par (c :: cs) = .fail := by
  simp [Plover.par, tagNoCaseP_cons_lbrace h]

theorem command_fail {c : Char} {cs : List Char} (h : c ≠ '\x7b') :
    Plover.command (c :: cs) = .fail := by
  simp [Plover.command, tagNoCaseP_cons_lbrace h]

theorem mode_space_fail {c : Char} {cs : List Char} (h : c ≠ '\x7b') :
    Plover.mode_space (c :: cs) = .fail := by
  simp [Plover.mode_space, tagNoCaseP_cons_lbrace h]

theorem mode_fail {c : Char} {cs : List Char} (h : c ≠ '\x7b') :
    Plover.mode (c :: cs) = .fail := by
  simp [Plover.mode, tagNoCaseP_cons_lbrace h]

theorem glue_fail {c : Char} {cs : List Char} (h : c ≠ '\x7b') :
    Plover.glue (c :: cs) = .fail := by
  simp [Plover.glue, tagP_cons_ne (Ne.symm h)]

theorem currency_fail {c : Char} {cs : List Char} (h : c ≠ '\x7b') :
    Plover.currency (c :: cs) = .fail := by
  simp [Plover.currency, tagP_cons_ne (Ne.symm h)]

theorem currency_meta_fail {c : Char} {cs : List Char} (h : c ≠ '\x7b') :
    Plover.currency_meta (c :: cs) = .fail := by
  simp [Plover.currency_meta, tagP_cons_ne (Ne.symm h)]

theorem key_combo_fail {c : Char} {cs : List Char} (h : c ≠ '\x7b') :
    Plover.key_combo (c :: cs) = .fail := by
  simp [Plover.key_combo, tagP_cons_ne (Ne.symm h)]

theorem punctuation_fail {c : Char} {cs : List Char} (h : c ≠ '\x7b') :
    Plover.punctuation (c :: cs) = .fail := by
  simp [Plover.punctuation, tagP_cons_ne (Ne.symm h)]

theorem operator_fail {c : Char} {cs : List Char} (h : c ≠ '\x7b') :
    Plover.operator (c :: cs) = .fail := by
  simp [Plover.operator, tagP_cons_ne (Ne.symm h)]

theorem meta_fail {c : Char} {cs : List Char} (h : c ≠ '\x7b') :
    Plover.meta (c :: cs) = .fail := by
  simp [Plover.meta, tagP_cons_ne (Ne.symm h)]

theorem carry_alt_fail {c : Char} {cs : List Char} (h : c ≠ '\x7b') :
    Plover.carry_alt (c :: cs) = .fail := by
  simp [Plover.carry_alt, Plover.infix_carry_cap, Plover.prefix_carry_cap,
    Plover.suffix_carry_cap, Plover.raw_carry_cap, PRes.orElse,
    tagP_cons_ne (Ne.symm h)]

theorem attach_alt_fail {c : Char} {cs : List Char} (h : c ≠ '\x7b') :
    Plover.attach_alt (c :: cs) = .fail := by
  simp [Plover.attach_alt, Plover.infix_attach, Plover.suffix_attach,
    Plover.prefix_attach, PRes.orElse, tagP_cons_ne (Ne.symm h)]

theorem anything_fail {c : Char} {cs : List Char} (h : c ≠ '\x7b') :
    Plover.anything_between_braces (c :: cs) = .fail := by
  simp [Plover.anything_between_braces, tagP_cons_ne (Ne.symm h)]

theorem altPlover_eq_raw {c : Char} {cs : List Char}
    (h1 : c ≠ '\x7b') (h2 : c ≠ '\\') :
    Plover.altPlover (c :: cs) = Plover.raw (c :: cs) := by
  simp [Plover.altPlover, PRes.orElse, escaped_fail h2, spaces_fail h1,
    cancel_fail h1, noop_fail h1, par_fail h1, command_fail h1,
    mode_space_fail h1, mode_fail h1, glue_fail h1, currency_fail h1,
    currency_meta_fail h1, key_combo_fail h1, punctuation_fail h1,
    operator_fail h1, meta_fail h1, carry_alt_fail h1, attach_alt_fail h1,
    anything_fail h1]

theorem macroRule_fail {c : Char} {cs : List Char} (h : c ≠ '=') :
    Plover.macroRule (c :: cs) = .fail := by
  simp [Plover.macroRule, tagP_cons_ne (Ne.symm h)]

theorem takeTillP_all {p : Char → Bool} {s : List Char}
    (h : ∀ c ∈ s, p c = false) : takeTillP p s = (s, []) := by
  induction s with
  | nil => rfl
  | cons c cs ih =>
    have hc := h c (by simp)
    simp [takeTillP, hc, ih (fun d hd => h d (by simp [hd]))]

theorem raw_all {s : List Char}
    (h : ∀ c ∈ s, ¬(c = '\x7b' ∨ c = '\\')) :
    Plover.raw s = .ok [] (Object.RawString s) := by
  unfold Plover.raw
  rw [takeTillP_all]
  intro c hc
  simpa using h c hc

theorem long_group_fail {c : Char} {cs : List Char} (h : c ≠ '\x7b') :
    Rtf.long_group (c :: cs) = .fail := by
  simp [Rtf.long_group, tagP_cons_ne (Ne.symm h)]

theorem arg_group_fail {c : Char} {cs : List Char} (h : c ≠ '\x7b') :
    Rtf.arg_group (c :: cs) = .fail := by
  simp [Rtf.arg_group, tagP_cons_ne (Ne.symm h)]

theorem no_arg_group_fail {c : Char} {cs : List Char} (h : c ≠ '\x7b') :
    Rtf.no_arg_group (c :: cs) = .fail := by
  simp [Rtf.no_arg_group, tagP_cons_ne (Ne.symm h)]

theorem punc_group_fail {c : Char} {cs : List Char} (h : c ≠ '\x7b') :
    Rtf.punc_group (c :: cs) = .fail := by
  simp [Rtf.punc_group, tagP_cons_ne (Ne.symm h)]

theorem fing_group_fail {c : Char} {cs : List Char} (h : c ≠ '\x7b') :
    Rtf.fing_group (c :: cs) = .fail := by
  simp [Rtf.fing_group, tagP_cons_ne (Ne.symm h)]

theorem stit_group_fail {c : Char} {cs : List Char} (h : c ≠ '\x7b') :
    Rtf.stit_group (c :: cs) = .fail := by
  simp [Rtf.stit_group, tagP_cons_ne (Ne.symm h)]

theorem conf_group_fail {c : Char} {cs : List Char} (h : c ≠ '\x7b') :
    Rtf.conf_group (c :: cs) = .fail := by
  simp [Rtf.conf_group, tagP_cons_ne (Ne.symm h)]

theorem rtf_par_fail {c : Char} {cs : List Char} (h : c ≠ '\\') :
    Rtf.par (c :: cs) = .fail := by
  simp [Rtf.par, tagP_cons_ne (Ne.symm h)]

theorem dstroke_fail {c : Char} {cs : List Char} (h : c ≠ '\\') :
    Rtf.dstroke (c :: cs) = .fail := by
  simp [Rtf.dstroke, tagP_cons_ne (Ne.symm h)]

theorem fl_fc_fail {c : Char} {cs : List Char} (h : c ≠ '\\') :
    Rtf.fl_fc (c :: cs) = .fail := by
  simp [Rtf.fl_fc, tagP_cons_ne (Ne.symm h)]

theorem dspace_fail {c : Char} {cs : List Char} (h : c ≠ '\\') :
    Rtf.dspace (c :: cs) = .fail := by
  simp [Rtf.dspace, tagP_cons_ne (Ne.symm h)]

theorem rtf_escaped_fail {c : Char} {cs : List Char} (h : c ≠ '\\') :
    Rtf.escaped (c :: cs) = .fail := by
  simp [Rtf.escaped, tagP_cons_ne (Ne.symm h)]

theorem hyphen_fail {c : Char} {cs : List Char} (h : c ≠ '\\') :
    Rtf.hyphen (c :: cs) = .fail := by
  simp [Rtf.hyphen, tagP_cons_ne (Ne.symm h)]

theorem unicode_fail {c : Char} {cs : List Char} (h : c ≠ '\\') :
    Rtf.unicode (c :: cs) = .fail := by
  simp [Rtf.unicode, tagP_cons_ne (Ne.symm h)]

theorem rtf_newline_fail {c : Char} {cs : List Char} (h : c ≠ '\\') :
    Rtf.newline (c :: cs) = .fail := by
  simp [Rtf.newline, tagP_cons_ne (Ne.symm h)]

theorem altRtf_eq_plain {c : Char} {cs : List Char}
    (h1 : c ≠ '\x7b') (h2 : c ≠ '\\') :
    Rtf.altRtf (c :: cs) = Rtf.plain_text (c :: cs) := by
  simp [Rtf.altRtf, PRes.orElse, long_group_fail h1, arg_group_fail h1,
    no_arg_group_fail h1, punc_group_fail h1, fing_group_fail h1,
    stit_group_fail h1, conf_group_fail h1, rtf_par_fail h2, dstroke_fail h2,
    fl_fc_fail h2, dspace_fail h2, rtf_escaped_fail h2, hyphen_fail h2,
    unicode_fail h2, rtf_newline_fail h2]

theorem takeWhileP_all {p : Char → Bool} {s : List Char}
    (h : ∀ c ∈ s, p c = true) : takeWhileP p s = (s, []) := by
  induction s with
  | nil => rfl
  | cons c cs ih =>
    have hc := h c (by simp)
    simp [takeWhileP, hc, ih (fun d hd => h d (by simp [hd]))]

theorem plain_text_all {s : List Char}
    (h : ∀ c ∈ s, ¬(c = '\\' ∨ c = '\x7b')) :
    Rtf.plain_text s = .ok [] (Object.RawString s) := by
  unfold Rtf.plain_text
  rw [takeWhileP_all]
  intro c hc
  simpa using h c hc

theorem restF_single {c : Char} {cs : List Char} {o : Object}
    (h : Plover.altPlover (c :: cs) = .ok [] o) :
    Plover.rest (c :: cs) = .ok [] [o] := by
  show Plover.restF ((c :: cs).length + 1) (c :: cs) = .ok [] [o]
  rw [show (c :: cs).length + 1 = (cs.length + 1) + 1 from by simp]
  rw [Plover.restF, h]
  simp [Plover.restF]

theorem objectsF_single {c : Char} {cs : List Char} {o : Object}
    (h : Rtf.altRtf (c :: cs) = .ok [] o) :
    Rtf.objects (c :: cs) = .ok [] [o] := by
  show Rtf.objectsF ((c :: cs).length + 1) (c :: cs) = .ok [] [o]
  rw [show (c :: cs).length + 1 = (cs.length + 1) + 1 from by simp]
  rw [Rtf.objectsF, h]
  simp [Rtf.objectsF]

theorem escRtfChar_id {c : Char} (h1 : c ≠ '\x7b') (h2 : c ≠ '\x7d') (h3 : c ≠ '\\')
    (h4 : c ≠ '-') (h5 : c ≠ '\n') (h6 : c ≠ '\t') (h7 : c.toNat ≤ 255) :
    escRtfChar c = [c] := by
  simp [escRtfChar, h1, h2, h3, h4, h5, h6, Nat.not_lt.mpr h7]

theorem flatMap_esc_id {s : List Char} (h : ∀ c ∈ s, escRtfChar c = [c]) :
    s.flatMap escRtfChar = s := by
  induction s with
  | nil => rfl
  | cons c cs ih =>
    simp [h c (by simp), ih (fun d hd => h d (by simp [hd]))]

theorem plover_identity {c : Char} {cs : List Char}
    (h : ∀ d ∈ (c :: cs), ¬(d = '\x7b' ∨ d = '\\'))
    (hh : c ≠ '=')
    (hesc : ∀ d ∈ (c :: cs), escRtfChar d = [d]) :
    format_plover_to_rtf (c :: cs) = .ok (c :: cs) := by
  have h1 : c ≠ '\x7b' := by have := h c (by simp); tauto
  have h2 : c ≠ '\\' := by have := h c (by simp); tauto
  have halt : Plover.altPlover (c :: cs) = .ok [] (Object.RawString (c :: cs)) := by
    rw [altPlover_eq_raw h1 h2]
    exact raw_all h
  unfold format_plover_to_rtf Plover.parse_translation
  rw [macroRule_fail hh, restF_single halt]
  simp [renderRtfObj, flatMap_esc_id hesc]

theorem rtf_identity {c : Char} {cs : List Char}
    (h : ∀ d ∈ (c :: cs), ¬(d = '\x7b' ∨ d = '\\')) :
    format_rtf_to_plover (c :: cs) = .ok (c :: cs) := by
  have h1 : c ≠ '\x7b' := by have := h c (by simp); tauto
  have h2 : c ≠ '\\' := by have := h c (by simp); tauto
  have halt : Rtf.altRtf (c :: cs) = .ok [] (Object.RawString (c :: cs)) := by
    rw [altRtf_eq_plain h1 h2]
    exact plain_text_all (fun d hd => by have := h d hd; tauto)
  unfold format_rtf_to_plover Rtf.parse_translation
  rw [objectsF_single halt]
  simp [renderPloverObj]

end Rtfcre

namespace Rtfcre

theorem natDecAux_eq {fuel n : Nat} {acc : List Char} (h : n < fuel) :
    natDecAux fuel n acc = natDigitsSpec n ++ acc := by
  induction fuel generalizing n acc with
  | zero => omega
  | succ f ih =>
    rw [natDecAux]
    by_cases h10 : n < 10
    · rw [if_pos h10, natDigitsSpec, dif_pos h10]
      rfl
    · rw [if_neg h10, ih (by omega : n / 10 < f)]
      conv_rhs => rw [natDigitsSpec, dif_neg h10]
      simp

theorem natDecimal_eq (n : Nat) : natDecimal n = natDigitsSpec n := by
  unfold natDecimal
  rw [natDecAux_eq (by omega)]
  simp

theorem isAsciiDigit_digitChar {m : Nat} (h : m < 10) :
    isAsciiDigit (digitChar m) = true := by
  interval_cases m <;> decide

theorem toNat_digitChar {m : Nat} (h : m < 10) :
    (digitChar m).toNat = 48 + m := by
  interval_cases m <;> decide

theorem natDigitsSpec_digits (n : Nat) :
    ∀ c ∈ natDigitsSpec n, isAsciiDigit c = true := by
  induction n using Nat.strong_induction_on with
  | _ n ih =>
    rw [natDigitsSpec]
    by_cases h : n < 10
    · rw [dif_pos h]
      intro c hc
      simp at hc
      subst hc
      exact isAsciiDigit_digitChar h
    · rw [dif_neg h]
      intro c hc
      rcases List.mem_append.1 hc with hm | hm
      · exact ih (n / 10) (Nat.div_lt_self (by omega) (by omega)) c hm
      · simp at hm
        subst hm
        exact isAsciiDigit_digitChar (Nat.mod_lt _ (by omega))

theorem digitsVal_append_one (xs : List Char) (d : Char) :
    digitsVal (xs ++ [d]) = 10 * digitsVal xs + (d.toNat - 48) := by
  simp [digitsVal, List.foldl_append]

theorem digitsVal_natDigitsSpec (n : Nat) : digitsVal (natDigitsSpec n) = n := by
  induction n using Nat.strong_induction_on with
  | _ n ih =>
    rw [natDigitsSpec]
    by_cases h : n < 10
    · rw [dif_pos h]
      simp [digitsVal, toNat_digitChar h]
    · rw [dif_neg h]
      rw [digitsVal_append_one, ih (n / 10) (Nat.div_lt_self (by omega) (by omega))]
      rw [toNat_digitChar (Nat.mod_lt _ (by omega))]
      omega

theorem natDigitsSpec_ne_nil (n : Nat) : natDigitsSpec n ≠ [] := by
  rw [natDigitsSpec]
  by_cases h : n < 10
  · rw [dif_pos h]; simp
  · rw [dif_neg h]; simp

theorem takeWhileP_append_stop {p : Char → Bool} {xs : List Char} {y : Char}
    {ys : List Char} (hxs : ∀ x ∈ xs, p x = true) (hy : p y = false) :
    takeWhileP p (xs ++ y :: ys) = (xs, y :: ys) := by
  induction xs with
  | nil => simp [takeWhileP, hy]
  | cons x t ih =>
    have hx := hxs x (by simp)
    simp [takeWhileP, hx, ih (fun d hd => hxs d (by simp [hd]))]

end Rtfcre

namespace Rtfcre

theorem positive_number_spec {n : Nat} {ys : List Char} (h : n < 4294967296) :
    Rtf.positive_number (natDigitsSpec n ++ ' ' :: ys) = .ok (' ' :: ys) n := by
  unfold Rtf.positive_number
  unfold takeWhile1P
  rw [takeWhileP_append_stop (natDigitsSpec_digits n) (by decide)]
  obtain ⟨d, ds, hds⟩ : ∃ d ds, natDigitsSpec n = d :: ds := by
    cases hn : natDigitsSpec n with
    | nil => exact absurd hn (natDigitsSpec_ne_nil n)
    | cons d ds => exact ⟨d, ds, rfl⟩
  rw [hds]
  simp only []
  rw [← hds, digitsVal_natDigitsSpec]
  have h' : n < 2 ^ 32 := by omega
  rw [if_pos h']

theorem rtf_unicode_spec (c : Char) :
    Rtf.unicode ('\\' :: 'u' :: (natDigitsSpec c.toNat ++ [' '])) =
      .ok [] (Object.RawString [c]) := by
  have hval : c.toNat < 55296 ∨ (57343 < c.toNat ∧ c.toNat < 1114112) := c.valid
  have hlt : c.toNat < 4294967296 := by
    rcases hval with h | ⟨_, h⟩ <;> omega
  have hstep : Rtf.unicode ('\\' :: 'u' :: (natDigitsSpec c.toNat ++ [' '])) =
      (match Rtf.positive_number (natDigitsSpec c.toNat ++ ' ' :: []) with
       | .fail => .fail
       | .panic => .panic
       | .ok r2 n =>
         let r3 := match tagP [' '] r2 with
           | some r => r
           | none => r2
         if n < 55296 ∨ (57343 < n ∧ n < 1114112) then
           .ok r3 (Object.RawString [Char.ofNat n])
         else .panic) := rfl
  rw [hstep, positive_number_spec hlt]
  show (if c.toNat < 55296 ∨ (57343 < c.toNat ∧ c.toNat < 1114112) then
      PRes.ok [] (Object.RawString [Char.ofNat c.toNat]) else PRes.panic) =
    PRes.ok [] (Object.RawString [c])
  rw [if_pos hval, Char.ofNat_toNat]

theorem altRtf_unicode (c : Char) :
    Rtf.altRtf ('\\' :: 'u' :: (natDigitsSpec c.toNat ++ [' '])) =
      .ok [] (Object.RawString [c]) := by
  have h1 : ('\\' : Char) ≠ '\x7b' := by decide
  have hp : Rtf.par ('\\' :: 'u' :: (natDigitsSpec c.toNat ++ [' '])) = .fail := rfl
  have hd : Rtf.dstroke ('\\' :: 'u' :: (natDigitsSpec c.toNat ++ [' '])) = .fail := rfl
  have hf : Rtf.fl_fc ('\\' :: 'u' :: (natDigitsSpec c.toNat ++ [' '])) = .fail := rfl
  have hs : Rtf.dspace ('\\' :: 'u' :: (natDigitsSpec c.toNat ++ [' '])) = .fail := rfl
  have he : Rtf.escaped ('\\' :: 'u' :: (natDigitsSpec c.toNat ++ [' '])) = .fail := rfl
  have hh : Rtf.hyphen ('\\' :: 'u' :: (natDigitsSpec c.toNat ++ [' '])) = .fail := rfl
  simp only [Rtf.altRtf, long_group_fail h1, arg_group_fail h1,
    no_arg_group_fail h1, punc_group_fail h1, fing_group_fail h1,
    stit_group_fail h1, conf_group_fail h1, hp, hd, hf, hs, he, hh,
    rtf_unicode_spec c, PRes.orElse]

end Rtfcre

namespace Rtfcre

theorem char_ne_of_gt255 {c : Char} (h : 255 < c.toNat) {d : Char}
    (hd : d.toNat ≤ 255) : c ≠ d := by
  intro he
  rw [he] at h
  omega

theorem c4_plover_dir {c : Char} (h : 255 < c.toNat) :
    format_plover_to_rtf [c] = .ok ('\\' :: 'u' :: (natDecimal c.toNat ++ [' '])) := by
  have h1 : c ≠ '\x7b' := char_ne_of_gt255 h (by decide)
  have h2 : c ≠ '\\' := char_ne_of_gt255 h (by decide)
  have h3 : c ≠ '\x7d' := char_ne_of_gt255 h (by decide)
  have h4 : c ≠ '-' := char_ne_of_gt255 h (by decide)
  have h5 : c ≠ '\n' := char_ne_of_gt255 h (by decide)
  have h6 : c ≠ '\t' := char_ne_of_gt255 h (by decide)
  have heq : c ≠ '=' := char_ne_of_gt255 h (by decide)
  have halt : Plover.altPlover [c] = .ok [] (Object.RawString [c]) := by
    rw [show ([c] : List Char) = c :: [] from rfl, altPlover_eq_raw h1 h2]
    exact raw_all (by intro d hd; simp at hd; subst hd; tauto)
  unfold format_plover_to_rtf Plover.parse_translation
  rw [show ([c] : List Char) = c :: [] from rfl, macroRule_fail heq, restF_single halt]
  show Out.ok ([Object.RawString [c]].flatMap renderRtfObj) = _
  simp only [List.flatMap_cons, List.flatMap_nil, List.append_nil, renderRtfObj]
  simp [escRtfChar, h1, h2, h3, h4, h5, h6, h]

theorem c4_rtf_dir (c : Char) :
    format_rtf_to_plover ('\\' :: 'u' :: (natDecimal c.toNat ++ [' '])) = .ok [c] := by
  rw [natDecimal_eq]
  unfold format_rtf_to_plover Rtf.parse_translation
  rw [objectsF_single (altRtf_unicode c)]
  simp [renderPloverObj]

end Rtfcre

namespace Rtfcre

theorem takeUntilP_single {a : Char} {xs ys : List Char} (h : a ∉ xs) :
    takeUntilP [a] (xs ++ a :: ys) = some (xs, a :: ys) := by
  induction xs with
  | nil => simp [takeUntilP, List.isPrefixOf]
  | cons x t ih =>
    have hax : ¬(a = x) := by simp at h; tauto
    have ht : a ∉ t := by simp at h; tauto
    simp [takeUntilP, List.isPrefixOf, hax, ih ht]

theorem takeUntilP_single_cons {a x : Char} {xs ys : List Char}
    (hax : a ≠ x) (h : a ∉ xs) :
    takeUntilP [a] (x :: (xs ++ a :: ys)) = some (x :: xs, a :: ys) := by
  have h2 : a ∉ x :: xs := by simp [hax, h]
  have h3 := @takeUntilP_single a (x :: xs) ys h2
  simpa using h3

theorem splitFirst_append {a : Char} {xs ys : List Char} (h : a ∉ xs) :
    splitFirst a (xs ++ a :: ys) = some (xs, ys) := by
  induction xs with
  | nil => simp [splitFirst]
  | cons x t ih =>
    have hax : ¬(x = a) := by simp at h; tauto
    have ht : a ∉ t := by simp at h; tauto
    simp [splitFirst, hax, ih ht]

theorem getD_emptyToNone (s : List Char) : (emptyToNone s).getD [] = s := by
  unfold emptyToNone
  split <;> simp_all

theorem currency_value {X Y : List Char} (hX : 'c' ∉ X) (hY : ')' ∉ Y) :
    Plover.currency ('\x7b' :: '*' :: '(' :: (X ++ 'c' :: ' ' :: (Y ++ [')', '\x7d']))) =
      .ok [] (Object.Currency (emptyToNone X) (emptyToNone (' ' :: Y))) := by
  have hpost : takeUntilP [')'] (' ' :: (Y ++ [')', '\x7d'])) =
      some (' ' :: Y, ')' :: ['\x7d']) := by
    have h3 := @takeUntilP_single_cons ')' ' ' Y ['\x7d'] (by decide) hY
    simpa using h3
  simp [Plover.currency, tagP]
  rw [takeUntilP_single hX]
  simp [tagP]
  rw [hpost]
  simp [tagP]

theorem altPlover_currency {X Y : List Char} (hX : 'c' ∉ X) (hY : ')' ∉ Y) :
    Plover.altPlover ('\x7b' :: '*' :: '(' :: (X ++ 'c' :: ' ' :: (Y ++ [')', '\x7d']))) =
      .ok [] (Object.Currency (emptyToNone X) (emptyToNone (' ' :: Y))) := by
  have he : Plover.escaped ('\x7b' :: '*' :: '(' :: (X ++ 'c' :: ' ' :: (Y ++ [')', '\x7d']))) = .fail := rfl
  have hsp : Plover.spaces ('\x7b' :: '*' :: '(' :: (X ++ 'c' :: ' ' :: (Y ++ [')', '\x7d']))) = .fail := rfl
  have hca : Plover.cancel ('\x7b' :: '*' :: '(' :: (X ++ 'c' :: ' ' :: (Y ++ [')', '\x7d']))) = .fail := rfl
  have hno : Plover.noop ('\x7b' :: '*' :: '(' :: (X ++ 'c' :: ' ' :: (Y ++ [')', '\x7d']))) = .fail := rfl
  have hpa : Plover.par ('\x7b' :: '*' :: '(' :: (X ++ 'c' :: ' ' :: (Y ++ [')', '\x7d']))) = .fail := rfl
  have hco : Plover.command ('\x7b' :: '*' :: '(' :: (X ++ 'c' :: ' ' :: (Y ++ [')', '\x7d']))) = .fail := rfl
  have hms : Plover.mode_space ('\x7b' :: '*' :: '(' :: (X ++ 'c' :: ' ' :: (Y ++ [')', '\x7d']))) = .fail := rfl
  have hmo : Plover.mode ('\x7b' :: '*' :: '(' :: (X ++ 'c' :: ' ' :: (Y ++ [')', '\x7d']))) = .fail := rfl
  have hgl : Plover.glue ('\x7b' :: '*' :: '(' :: (X ++ 'c' :: ' ' :: (Y ++ [')', '\x7d']))) = .fail := rfl
  simp only [Plover.altPlover, he, hsp, hca, hno, hpa, hco, hms, hmo, hgl,
    currency_value hX hY, PRes.orElse]

theorem takeUntilP_rbrace_mid {X Y : List Char} (hX : '\x7d' ∉ X) (hY : '\x7d' ∉ Y) :
    takeUntilP ['\x7d'] (X ++ 'c' :: ' ' :: (Y ++ ['\x7d'])) =
      some (X ++ 'c' :: ' ' :: Y, ['\x7d']) := by
  have h2 : '\x7d' ∉ (X ++ 'c' :: ' ' :: Y) := by
    simp only [List.mem_append, List.mem_cons, not_or]
    exact ⟨hX, by decide, by decide, hY⟩
  have h3 := @takeUntilP_single '\x7d' (X ++ 'c' :: ' ' :: Y) [] h2
  simpa using h3

theorem arg_group_currency {X Y : List Char} (hXc : 'c' ∉ X)
    (hXb : '\x7d' ∉ X) (hYb : '\x7d' ∉ Y) :
    Rtf.arg_group ("\x7b\\*\\cxplvrcurr ".toList ++ (X ++ 'c' :: ' ' :: (Y ++ ['\x7d']))) =
      .ok [] (Object.Currency (emptyToNone X) (emptyToNone (' ' :: Y))) := by
  have hc : 'c' ∈ X ++ 'c' :: ' ' :: Y := by simp
  simp [Rtf.arg_group, Rtf.cxplvrLabel, tagP, takeWhile1P, takeWhileP, Rtf.number,
    isAsciiAlpha, isAsciiDigit]
  rw [takeUntilP_rbrace_mid hXb hYb]
  simp [tagP, Rtf.argLabel, Rtf.argSplit]
  rw [splitFirst_append hXc]

end Rtfcre

namespace Rtfcre

theorem rest_single {s : List Char} {o : Object} (hne : s ≠ [])
    (h : Plover.altPlover s = .ok [] o) : Plover.rest s = .ok [] [o] := by
  cases s with
  | nil => exact absurd rfl hne
  | cons c cs => exact restF_single h

theorem objects_single {s : List Char} {o : Object} (hne : s ≠ [])
    (h : Rtf.altRtf s = .ok [] o) : Rtf.objects s = .ok [] [o] := by
  cases s with
  | nil => exact absurd rfl hne
  | cons c cs => exact objectsF_single h

theorem c9_p2r {X Y : List Char} (hXc : 'c' ∉ X) (hYp : ')' ∉ Y) :
    format_plover_to_rtf ('\x7b' :: '*' :: '(' :: (X ++ 'c' :: ' ' :: (Y ++ [')', '\x7d']))) =
      .ok ("\x7b\\*\\cxplvrcurr ".toList ++ (X ++ 'c' :: ' ' :: (Y ++ ['\x7d']))) := by
  have hm : Plover.macroRule ('\x7b' :: '*' :: '(' :: (X ++ 'c' :: ' ' :: (Y ++ [')', '\x7d']))) = .fail := rfl
  have hr := rest_single (by simp) (altPlover_currency hXc hYp)
  unfold format_plover_to_rtf Plover.parse_translation
  rw [hm, hr]
  simp [renderRtfObj, getD_emptyToNone]

theorem c9_r2p {X Y : List Char} (hXc : 'c' ∉ X) (hXb : '\x7d' ∉ X)
    (hYb : '\x7d' ∉ Y) :
    format_rtf_to_plover ("\x7b\\*\\cxplvrcurr ".toList ++ (X ++ 'c' :: ' ' :: (Y ++ ['\x7d']))) =
      .ok ('\x7b' :: '*' :: '(' :: (X ++ 'c' :: ' ' :: (Y ++ [')', '\x7d']))) := by
  have hl : Rtf.long_group ("\x7b\\*\\cxplvrcurr ".toList ++ (X ++ 'c' :: ' ' :: (Y ++ ['\x7d']))) = .fail := rfl
  have halt : Rtf.altRtf ("\x7b\\*\\cxplvrcurr ".toList ++ (X ++ 'c' :: ' ' :: (Y ++ ['\x7d']))) =
      .ok [] (Object.Currency (emptyToNone X) (emptyToNone (' ' :: Y))) := by
    simp only [Rtf.altRtf, hl, arg_group_currency hXc hXb hYb, PRes.orElse]
  have hobj := objects_single (by simp) halt
  unfold format_rtf_to_plover Rtf.parse_translation
  rw [hobj]
  simp [renderPloverObj, getD_emptyToNone]

end Rtfcre

namespace Rtfcre

set_option maxHeartbeats 2000000 in
theorem metaDispatch_no_ortho {rem rem2 lname : List Char}
    {marg : Option (List Char)} {o : Object}
    (h : Plover.metaDispatch rem lname marg = .ok rem2 o) :
    o ≠ Object.OrthoAttach := by
  unfold Plover.metaDispatch at h
  by_cases h1 : lname = "glue".toList
  · rw [if_pos h1] at h
    repeat' split at h
    all_goals first
      | (injection h with he ho; subst ho; simp)
      | simp_all
  rw [if_neg h1] at h
  by_cases h2 : lname = "stop".toList ∨ lname = "comma".toList
  · rw [if_pos h2] at h
    repeat' split at h
    all_goals first
      | (injection h with he ho; subst ho; simp)
      | simp_all
  rw [if_neg h2] at h
  by_cases h3 : lname = "key_combo".toList
  · rw [if_pos h3] at h
    repeat' split at h
    all_goals first
      | (injection h with he ho; subst ho; simp)
      | simp_all
  rw [if_neg h3] at h
  by_cases h4 : lname = "case".toList
  · rw [if_pos h4] at h
    repeat' split at h
    all_goals first
      | (injection h with he ho; subst ho; simp)
      | simp_all
  rw [if_neg h4] at h
  by_cases h5 : lname = "attach".toList
  · rw [if_pos h5] at h
    repeat' split at h
    all_goals first
      | (injection h with he ho; subst ho; simp)
      | simp_all
  rw [if_neg h5] at h
  by_cases h6 : lname = "carry_capitalize".toList
  · rw [if_pos h6] at h
    repeat' split at h
    all_goals first
      | (injection h with he ho; subst ho; simp)
      | simp_all
  rw [if_neg h6] at h
  by_cases h7 : lname = "retro_case".toList
  · rw [if_pos h7] at h
    repeat' split at h
    all_goals first
      | (injection h with he ho; subst ho; simp)
      | simp_all
  rw [if_neg h7] at h
  by_cases h8 : lname = "stitch".toList
  · rw [if_pos h8] at h
    repeat' split at h
    all_goals first
      | (injection h with he ho; subst ho; simp)
      | simp_all
  rw [if_neg h8] at h
  by_cases h9 : lname = "command".toList
  · rw [if_pos h9] at h
    repeat' split at h
    all_goals first
      | (injection h with he ho; subst ho; simp)
      | simp_all
  rw [if_neg h9] at h
  by_cases h10 : lname = "mode".toList
  · rw [if_pos h10] at h
    repeat' split at h
    all_goals first
      | (injection h with he ho; subst ho; simp)
      | simp_all
  rw [if_neg h10] at h
  injection h with he ho
  subst ho
  simp

end Rtfcre

namespace Rtfcre

theorem orElse_no_ortho {a : PRes Object} {b : Unit → PRes Object}
    (ha : ∀ rem o, a = .ok rem o → o ≠ Object.OrthoAttach)
    (hb : ∀ rem o, b () = .ok rem o → o ≠ Object.OrthoAttach) :
    ∀ rem o, a.orElse b = .ok rem o → o ≠ Object.OrthoAttach := by
  intro rem o h
  cases ha' : a with
  | fail =>
    rw [ha'] at h
    exact hb rem o h
  | panic =>
    rw [ha'] at h
    cases h
  | ok r v =>
    rw [ha'] at h
    injection h with h1 h2
    subst h2
    exact ha r v ha' 

theorem escaped_no_ortho {s rem : List Char} {o : Object}
    (h : Plover.escaped s = .ok rem o) : o ≠ Object.OrthoAttach := by
  unfold Plover.escaped at h
  repeat' split at h
  all_goals first
    | (injection h with he ho; subst ho; exact fun hx => Object.noConfusion hx)
    | (obtain ⟨he, ho⟩ := h; subst ho; exact fun hx => Object.noConfusion hx)
    | simp_all

theorem spaces_no_ortho {s rem : List Char} {o : Object}
    (h : Plover.spaces s = .ok rem o) : o ≠ Object.OrthoAttach := by
  unfold Plover.spaces at h
  repeat' split at h
  all_goals first
    | (injection h with he ho; subst ho; exact fun hx => Object.noConfusion hx)
    | (obtain ⟨he, ho⟩ := h; subst ho; exact fun hx => Object.noConfusion hx)
    | simp_all

theorem cancel_no_ortho {s rem : List Char} {o : Object}
    (h : Plover.cancel s = .ok rem o) : o ≠ Object.OrthoAttach := by
  unfold Plover.cancel at h
  repeat' split at h
  all_goals first
    | (injection h with he ho; subst ho; exact fun hx => Object.noConfusion hx)
    | (obtain ⟨he, ho⟩ := h; subst ho; exact fun hx => Object.noConfusion hx)
    | simp_all

theorem noop_no_ortho {s rem : List Char} {o : Object}
    (h : Plover.noop s = .ok rem o) : o ≠ Object.OrthoAttach := by
  unfold Plover.noop at h
  repeat' split at h
  all_goals first
    | (injection h with he ho; subst ho; exact fun hx => Object.noConfusion hx)
    | (obtain ⟨he, ho⟩ := h; subst ho; exact fun hx => Object.noConfusion hx)
    | simp_all

theorem par_no_ortho {s rem : List Char} {o : Object}
    (h : Plover.par s = .ok rem o) : o ≠ Object.OrthoAttach := by
  unfold Plover.par at h
  repeat' split at h
  all_goals first
    | (injection h with he ho; subst ho; exact fun hx => Object.noConfusion hx)
    | (obtain ⟨he, ho⟩ := h; subst ho; exact fun hx => Object.noConfusion hx)
    | simp_all

theorem command_no_ortho {s rem : List Char} {o : Object}
    (h : Plover.command s = .ok rem o) : o ≠ Object.OrthoAttach := by
  unfold Plover.command at h
  dsimp only [] at h
  repeat' split at h
  all_goals first
    | (injection h with he ho; subst ho; exact fun hx => Object.noConfusion hx)
    | (obtain ⟨he, ho⟩ := h; subst ho; exact fun hx => Object.noConfusion hx)
    | simp_all

theorem mode_space_no_ortho {s rem : List Char} {o : Object}
    (h : Plover.mode_space s = .ok rem o) : o ≠ Object.OrthoAttach := by
  unfold Plover.mode_space at h
  repeat' split at h
  all_goals first
    | (injection h with he ho; subst ho; exact fun hx => Object.noConfusion hx)
    | (obtain ⟨he, ho⟩ := h; subst ho; exact fun hx => Object.noConfusion hx)
    | simp_all

set_option maxHeartbeats 1000000 in
theorem modeMap_no_ortho (l : List Char) : Plover.modeMap l ≠ Object.OrthoAttach := by
  unfold Plover.modeMap
  split_ifs
  all_goals exact fun hx => Object.noConfusion hx

theorem mode_no_ortho {s rem : List Char} {o : Object}
    (h : Plover.mode s = .ok rem o) : o ≠ Object.OrthoAttach := by
  unfold Plover.mode at h
  repeat' split at h
  all_goals first
    | (injection h with he ho; subst ho; exact modeMap_no_ortho _)
    | (obtain ⟨he, ho⟩ := h; subst ho; exact modeMap_no_ortho _)
    | simp_all

theorem glue_no_ortho {s rem : List Char} {o : Object}
    (h : Plover.glue s = .ok rem o) : o ≠ Object.OrthoAttach := by
  unfold Plover.glue at h
  repeat' split at h
  all_goals first
    | (injection h with he ho; subst ho; exact fun hx => Object.noConfusion hx)
    | (obtain ⟨he, ho⟩ := h; subst ho; exact fun hx => Object.noConfusion hx)
    | simp_all

theorem currency_no_ortho {s rem : List Char} {o : Object}
    (h : Plover.currency s = .ok rem o) : o ≠ Object.OrthoAttach := by
  unfold Plover.currency at h
  repeat' split at h
  all_goals first
    | (injection h with he ho; subst ho; exact fun hx => Object.noConfusion hx)
    | (obtain ⟨he, ho⟩ := h; subst ho; exact fun hx => Object.noConfusion hx)
    | simp_all

theorem currency_meta_no_ortho {s rem : List Char} {o : Object}
    (h : Plover.currency_meta s = .ok rem o) : o ≠ Object.OrthoAttach := by
  unfold Plover.currency_meta at h
  repeat' split at h
  all_goals first
    | (injection h with he ho; subst ho; exact fun hx => Object.noConfusion hx)
    | (obtain ⟨he, ho⟩ := h; subst ho; exact fun hx => Object.noConfusion hx)
    | simp_all

theorem key_combo_no_ortho {s rem : List Char} {o : Object}
    (h : Plover.key_combo s = .ok rem o) : o ≠ Object.OrthoAttach := by
  unfold Plover.key_combo at h
  repeat' split at h
  all_goals first
    | (injection h with he ho; subst ho; exact fun hx => Object.noConfusion hx)
    | (obtain ⟨he, ho⟩ := h; subst ho; exact fun hx => Object.noConfusion hx)
    | simp_all

theorem punctuation_no_ortho {s rem : List Char} {o : Object}
    (h : Plover.punctuation s = .ok rem o) : o ≠ Object.OrthoAttach := by
  unfold Plover.punctuation at h
  repeat' split at h
  all_goals first
    | (injection h with he ho; subst ho; exact fun hx => Object.noConfusion hx)
    | (obtain ⟨he, ho⟩ := h; subst ho; exact fun hx => Object.noConfusion hx)
    | simp_all

set_option maxHeartbeats 1000000 in
theorem operMap_no_ortho (l : List Char) : Plover.operMap l ≠ Object.OrthoAttach := by
  unfold Plover.operMap
  split_ifs
  all_goals exact fun hx => Object.noConfusion hx

theorem operator_no_ortho {s rem : List Char} {o : Object}
    (h : Plover.operator s = .ok rem o) : o ≠ Object.OrthoAttach := by
  unfold Plover.operator at h
  repeat' split at h
  all_goals first
    | (injection h with he ho; subst ho; exact operMap_no_ortho _)
    | (obtain ⟨he, ho⟩ := h; subst ho; exact operMap_no_ortho _)
    | simp_all

theorem meta_no_ortho {s rem : List Char} {o : Object}
    (h : Plover.meta s = .ok rem o) : o ≠ Object.OrthoAttach := by
  unfold Plover.meta at h
  dsimp only [] at h
  repeat' split at h
  all_goals first
    | cases h
    | exact metaDispatch_no_ortho h

theorem carry_alt_no_ortho {s rem : List Char} {o : Object}
    (h : Plover.carry_alt s = .ok rem o) : o ≠ Object.OrthoAttach := by
  unfold Plover.carry_alt Plover.infix_carry_cap Plover.prefix_carry_cap
    Plover.suffix_carry_cap Plover.raw_carry_cap PRes.orElse at h
  repeat' split at h
  all_goals first
    | (injection h with he ho; subst ho; exact fun hx => Object.noConfusion hx)
    | (obtain ⟨he, ho⟩ := h; subst ho; exact fun hx => Object.noConfusion hx)
    | simp_all

theorem attach_alt_no_ortho {s rem : List Char} {o : Object}
    (h : Plover.attach_alt s = .ok rem o) : o ≠ Object.OrthoAttach := by
  unfold Plover.attach_alt Plover.infix_attach Plover.suffix_attach
    Plover.prefix_attach PRes.orElse at h
  repeat' split at h
  all_goals first
    | (injection h with he ho; subst ho; exact fun hx => Object.noConfusion hx)
    | (obtain ⟨he, ho⟩ := h; subst ho; exact fun hx => Object.noConfusion hx)
    | simp_all

theorem anything_no_ortho {s rem : List Char} {o : Object}
    (h : Plover.anything_between_braces s = .ok rem o) : o ≠ Object.OrthoAttach := by
  unfold Plover.anything_between_braces at h
  repeat' split at h
  all_goals first
    | (injection h with he ho; subst ho; exact fun hx => Object.noConfusion hx)
    | (obtain ⟨he, ho⟩ := h; subst ho; exact fun hx => Object.noConfusion hx)
    | simp_all

theorem raw_no_ortho {s rem : List Char} {o : Object}
    (h : Plover.raw s = .ok rem o) : o ≠ Object.OrthoAttach := by
  unfold Plover.raw at h
  injection h with he ho
  subst ho
  exact fun hx => Object.noConfusion hx

theorem altPlover_no_ortho (s : List Char) :
    ∀ rem o, Plover.altPlover s = .ok rem o → o ≠ Object.OrthoAttach := by
  unfold Plover.altPlover
  apply orElse_no_ortho (fun rem o h => escaped_no_ortho h)
  apply orElse_no_ortho (fun rem o h => spaces_no_ortho h)
  apply orElse_no_ortho (fun rem o h => cancel_no_ortho h)
  apply orElse_no_ortho (fun rem o h => noop_no_ortho h)
  apply orElse_no_ortho (fun rem o h => par_no_ortho h)
  apply orElse_no_ortho (fun rem o h => command_no_ortho h)
  apply orElse_no_ortho (fun rem o h => mode_space_no_ortho h)
  apply orElse_no_ortho (fun rem o h => mode_no_ortho h)
  apply orElse_no_ortho (fun rem o h => glue_no_ortho h)
  apply orElse_no_ortho (fun rem o h => currency_no_ortho h)
  apply orElse_no_ortho (fun rem o h => currency_meta_no_ortho h)
  apply orElse_no_ortho (fun rem o h => key_combo_no_ortho h)
  apply orElse_no_ortho (fun rem o h => punctuation_no_ortho h)
  apply orElse_no_ortho (fun rem o h => operator_no_ortho h)
  apply orElse_no_ortho (fun rem o h => meta_no_ortho h)
  apply orElse_no_ortho (fun rem o h => carry_alt_no_ortho h)
  apply orElse_no_ortho (fun rem o h => attach_alt_no_ortho h)
  exact orElse_no_ortho (fun rem o h => anything_no_ortho h)
    (fun rem o h => raw_no_ortho h)

end Rtfcre

namespace Rtfcre

theorem restF_no_ortho {fuel : Nat} :
    ∀ {s rem : List Char} {objs : List Object},
      Plover.restF fuel s = .ok rem objs → ∀ o ∈ objs, o ≠ Object.OrthoAttach := by
  induction fuel with
  | zero =>
    intro s rem objs h
    cases h
  | succ f ih =>
    intro s rem objs h
    rw [Plover.restF] at h
    by_cases hs : s = []
    · rw [if_pos hs] at h
      injection h with h1 h2
      subst h2
      simp
    rw [if_neg hs] at h
    cases halt : Plover.altPlover s with
    | panic => rw [halt] at h; cases h
    | fail => rw [halt] at h; cases h
    | ok rem1 first =>
      rw [halt] at h
      dsimp only [] at h
      by_cases hlen : rem1.length < s.length
      · rw [if_pos hlen] at h
        cases hrec : Plover.restF f rem1 with
        | diverge => rw [hrec] at h; cases h
        | panic => rw [hrec] at h; cases h
        | fail =>
          rw [hrec] at h
          dsimp only [] at h
          injection h with h1 h2
          subst h2
          intro o ho
          simp at ho
          subst ho
          exact altPlover_no_ortho s _ _ halt
        | ok rem2 more =>
          rw [hrec] at h
          dsimp only [] at h
          injection h with h1 h2
          subst h2
          intro o ho
          rcases List.mem_cons.1 ho with ho | ho
          · subst ho
            exact altPlover_no_ortho s _ _ halt
          · exact ih hrec o ho
      · rw [if_neg hlen] at h
        cases h

set_option maxHeartbeats 1000000 in
theorem macroRule_no_ortho {s rem : List Char} {objs : List Object}
    (h : Plover.macroRule s = .ok rem objs) : ∀ o ∈ objs, o ≠ Object.OrthoAttach := by
  unfold Plover.macroRule at h
  dsimp only [] at h
  split at h
  · cases h
  · injection h with h1 h2
    subst h2
    intro o ho
    simp only [List.mem_singleton] at ho
    subst ho
    split_ifs
    all_goals exact fun hx => Object.noConfusion hx

theorem plover_parse_no_ortho {input : List Char} {objs : List Object}
    (h : Plover.parse_translation input = .ok objs) :
    Object.OrthoAttach ∉ objs := by
  unfold Plover.parse_translation at h
  intro hmem
  cases hm : Plover.macroRule input with
  | ok r objs2 =>
    rw [hm] at h
    injection h with h1
    subst h1
    exact macroRule_no_ortho hm _ hmem rfl
  | panic => rw [hm] at h; cases h
  | fail =>
    rw [hm] at h
    cases hr : Plover.rest input with
    | ok r objs2 =>
      rw [hr] at h
      injection h with h1
      subst h1
      exact restF_no_ortho hr _ hmem rfl
    | fail =>
      rw [hr] at h
      injection h with h1
      subst h1
      simp at hmem
    | panic => rw [hr] at h; cases h
    | diverge => rw [hr] at h; cases h

end Rtfcre

namespace Rtfcre

theorem if_gt_eq_max (a b : Nat) : (if b > a then b else a) = max a b := by
  by_cases hc : b > a
  · rw [if_pos hc, Nat.max_eq_right (by omega)]
  · rw [if_neg hc, Nat.max_eq_left (by omega)]

theorem remove_entry_longest (d : Dict) (s : String) :
    (d.remove_entry s).longest_key = d.longest_key := by
  unfold Dict.remove_entry
  cases alLookup d.entries s <;> simp

theorem add_entry_longest (d : Dict) (s t : String) (c : Option String) :
    (d.add_entry s t c).longest_key = max d.longest_key (slashCount s) := by
  unfold Dict.add_entry
  dsimp only []
  rw [if_gt_eq_max]

theorem applyOps_longest (ops : List DictOp) :
    ∀ d : Dict, (applyOps d ops).longest_key =
      ops.foldl
        (fun m op =>
          match op with
          | DictOp.add s _ _ => max m (slashCount s)
          | DictOp.remove _ => m) d.longest_key := by
  induction ops with
  | nil => intro d; rfl
  | cons op t ih =>
    intro d
    cases op with
    | add s tr c =>
      show (applyOps (d.add_entry s tr c) t).longest_key = _
      rw [ih, add_entry_longest]
      rfl
    | remove s =>
      show (applyOps (d.remove_entry s) t).longest_key = _
      rw [ih, remove_entry_longest]
      rfl

theorem alLookup_alInsert {β : Type} (l : List (String × β)) (k k' : String) (v : β) :
    alLookup (alInsert l k v) k' = if k' = k then some v else alLookup l k' := by
  induction l with
  | nil =>
    simp only [alInsert, alLookup]
    by_cases h : k = k'
    · rw [if_pos h, if_pos h.symm]
    · rw [if_neg h, if_neg (Ne.symm h)]
  | cons kv t ih =>
    obtain ⟨k0, w⟩ := kv
    simp only [alInsert, alLookup]
    by_cases h0 : k0 = k
    · rw [if_pos h0]
      simp only [alLookup]
      rw [h0]
      by_cases h : k = k'
      · rw [if_pos h, if_pos h.symm]
      · rw [if_neg h, if_neg (Ne.symm h), if_neg h]
    · rw [if_neg h0]
      simp only [alLookup]
      by_cases h1 : k0 = k'
      · rw [if_pos h1, if_neg (fun he => h0 (h1.trans he)), if_pos h1]
      · rw [if_neg h1, ih, if_neg h1]

theorem alLookup_alUpdate {β : Type} (l : List (String × β)) (k k' : String)
    (f : β → β) :
    alLookup (alUpdate l k f) k' =
      if k' = k then (alLookup l k).map f else alLookup l k' := by
  induction l with
  | nil =>
    by_cases h : k' = k <;> simp [alUpdate, alLookup, h]
  | cons kv t ih =>
    obtain ⟨k0, w⟩ := kv
    simp only [alUpdate, alLookup]
    by_cases h0 : k0 = k
    · rw [if_pos h0, if_pos h0]
      simp only [alLookup, Option.map_some']
      rw [h0]
      by_cases h : k = k'
      · rw [if_pos h, if_pos h.symm]
      · rw [if_neg h, if_neg (Ne.symm h), if_neg h]
    · rw [if_neg h0, if_neg h0]
      simp only [alLookup]
      by_cases h1 : k0 = k'
      · rw [if_pos h1, if_neg (fun he => h0 (h1.trans he)), if_pos h1]
      · rw [if_neg h1, ih, if_neg h1]

theorem alLookup_alErase {β : Type} (l : List (String × β)) (k k' : String) :
    alLookup (alErase l k) k' = if k' = k then none else alLookup l k' := by
  induction l with
  | nil =>
    by_cases h : k' = k <;> simp [alErase, alLookup, h]
  | cons kv t ih =>
    obtain ⟨k0, w⟩ := kv
    by_cases h0 : k0 = k
    · have hdrop : alErase ((k0, w) :: t) k = alErase t k := by
        simp [alErase, List.filter_cons, h0]
      rw [hdrop, ih]
      simp only [alLookup]
      by_cases h : k' = k
      · rw [if_pos h, if_pos h]
      · rw [if_neg h, if_neg h,
          if_neg (fun he => h (Eq.symm (Eq.trans (Eq.symm h0) he)))]
    · have hkeep : alErase ((k0, w) :: t) k = (k0, w) :: alErase t k := by
        simp [alErase, List.filter_cons, h0]
      rw [hkeep]
      simp only [alLookup]
      rw [ih]
      by_cases h1 : k0 = k'
      · rw [if_pos h1, if_neg (fun he => h0 (h1.trans he)), if_pos h1]
      · rw [if_neg h1]
        by_cases h : k' = k
        · rw [if_pos h, if_pos h]
        · rw [if_neg h, if_neg h, if_neg h1]

theorem alLookup_append_single {β : Type} (l : List (String × β)) (k k' : String)
    (v : β) :
    alLookup (l ++ [(k, v)]) k' =
      match alLookup l k' with
      | some w => some w
      | none => if k' = k then some v else none := by
  induction l with
  | nil =>
    by_cases h : k = k'
    · simp [alLookup, h]
    · simp [alLookup, h, Ne.symm h]
  | cons kv t ih =>
    obtain ⟨k0, w⟩ := kv
    simp only [List.cons_append, alLookup]
    by_cases h0 : k0 = k'
    · rw [if_pos h0, if_pos h0]
    · rw [if_neg h0, if_neg h0, List.append_eq, ih]

theorem mem_setInsert (s : List String) (x y : String) :
    y ∈ setInsert s x ↔ y = x ∨ y ∈ s := by
  unfold setInsert
  split
  · constructor
    · intro h; exact Or.inr h
    · intro h
      rcases h with h | h
      · subst h; assumption
      · exact h
  · simp [List.mem_cons]

theorem mem_setRemove (s : List String) (x y : String) :
    y ∈ setRemove s x ↔ y ∈ s ∧ y ≠ x := by
  unfold setRemove
  simp

end Rtfcre

namespace Rtfcre

theorem dictInv_empty : DictInv Dict.empty := by
  intro s t
  constructor
  · intro h
    exact absurd h (by simp [Dict.empty, Dict.lookup, alLookup])
  · rintro ⟨l, hl, _⟩
    exact absurd hl (by simp [Dict.empty, Dict.rev_lookup, alLookup])

theorem alLookup_append_some {β : Type} {l : List (String × β)} {k' : String}
    {w : β} (k : String) (v : β) (hl : alLookup l k' = some w) :
    alLookup (l ++ [(k, v)]) k' = some w := by
  rw [alLookup_append_single, hl]

theorem alLookup_append_none {β : Type} {l : List (String × β)} {k' : String}
    (k : String) (v : β) (hl : alLookup l k' = none) :
    alLookup (l ++ [(k, v)]) k' = if k' = k then some v else none := by
  rw [alLookup_append_single, hl]

theorem add_entry_rev (d : Dict) (st tr : String) (c : Option String) :
    (d.add_entry st tr c).reverse_entries =
      (let rev1 :=
        match alLookup d.entries st with
        | some old => alUpdate d.reverse_entries old.translation
            (fun set => setRemove set st)
        | none => d.reverse_entries
      match alLookup rev1 tr with
      | some _ => alUpdate rev1 tr (fun set => setInsert set st)
      | none => rev1 ++ [(tr, [st])]) := rfl

theorem lookup_add_entry (d : Dict) (st tr : String) (c : Option String)
    (s : String) :
    (d.add_entry st tr c).lookup s = if s = st then some tr else d.lookup s := by
  unfold Dict.lookup
  show (alLookup (alInsert d.entries st ⟨st, tr, c⟩) s).map DEntry.translation = _
  rw [alLookup_alInsert]
  by_cases h : s = st
  · rw [if_pos h, if_pos h]
    rfl
  · rw [if_neg h, if_neg h]

theorem dictInv_add (d : Dict) (st tr : String) (c : Option String)
    (hd : DictInv d) : DictInv (d.add_entry st tr c) := by
  have hd' : ∀ s t : String,
      d.lookup s = some t ↔ ∃ l, alLookup d.reverse_entries t = some l ∧ s ∈ l :=
    fun s t => hd s t
  have hre0 := add_entry_rev d st tr c
  cases hold : alLookup d.entries st with
  | none =>
    rw [hold] at hre0
    dsimp only [] at hre0
    have hnone : d.lookup st = none := by
      unfold Dict.lookup
      rw [hold]
      rfl
    cases hfind : alLookup d.reverse_entries tr with
    | none =>
      rw [hfind] at hre0
      dsimp only [] at hre0
      intro s t
      rw [lookup_add_entry]
      unfold Dict.rev_lookup
      rw [hre0]
      cases halt : alLookup d.reverse_entries t with
      | some l0 =>
        rw [alLookup_append_some tr [st] halt]
        constructor
        · intro h
          by_cases hs : s = st
          · rw [if_pos hs] at h
            injection h with h
            exfalso
            rw [← h] at halt
            rw [hfind] at halt
            exact Option.noConfusion halt
          · rw [if_neg hs] at h
            obtain ⟨l, hl, hm⟩ := (hd' s t).mp h
            rw [halt] at hl
            injection hl with he
            subst he
            exact ⟨l0, rfl, hm⟩
        · rintro ⟨l, hl, hm⟩
          injection hl with he
          subst he
          have hls : d.lookup s = some t := (hd' s t).mpr ⟨l0, halt, hm⟩
          by_cases hs : s = st
          · exfalso
            rw [hs, hnone] at hls
            exact Option.noConfusion hls
          · rw [if_neg hs]
            exact hls
      | none =>
        rw [alLookup_append_none tr [st] halt]
        by_cases ht : t = tr
        · rw [if_pos ht]
          constructor
          · intro h
            by_cases hs : s = st
            · exact ⟨[st], rfl, by rw [hs]; exact List.mem_singleton.mpr rfl⟩
            · rw [if_neg hs] at h
              obtain ⟨l, hl, _⟩ := (hd' s t).mp h
              rw [halt] at hl
              exact Option.noConfusion hl
          · rintro ⟨l, hl, hm⟩
            injection hl with he
            subst he
            have hs : s = st := List.mem_singleton.mp hm
            rw [if_pos hs, ht]
        · rw [if_neg ht]
          constructor
          · intro h
            by_cases hs : s = st
            · rw [if_pos hs] at h
              injection h with h
              exact absurd h.symm ht
            · rw [if_neg hs] at h
              obtain ⟨l, hl, _⟩ := (hd' s t).mp h
              rw [halt] at hl
              exact Option.noConfusion hl
          · rintro ⟨l, hl, _⟩
            exact Option.noConfusion hl
    | some w0 =>
      rw [hfind] at hre0
      dsimp only [] at hre0
      intro s t
      rw [lookup_add_entry]
      unfold Dict.rev_lookup
      rw [hre0, alLookup_alUpdate, hfind]
      simp only [Option.map_some']
      by_cases ht : t = tr
      · rw [if_pos ht]
        constructor
        · intro h
          refine ⟨setInsert w0 st, rfl, ?_⟩
          by_cases hs : s = st
          · rw [hs]
            exact (mem_setInsert w0 st st).mpr (Or.inl rfl)
          · rw [if_neg hs] at h
            obtain ⟨l, hl, hm⟩ := (hd' s t).mp h
            rw [ht, hfind] at hl
            injection hl with he
            subst he
            exact (mem_setInsert w0 st s).mpr (Or.inr hm)
        · rintro ⟨l, hl, hm⟩
          injection hl with he
          subst he
          rcases (mem_setInsert w0 st s).mp hm with hs | hs
          · rw [if_pos hs, ht]
          · have hls : d.lookup s = some t :=
              (hd' s t).mpr ⟨w0, by rw [ht]; exact hfind, hs⟩
            by_cases hss : s = st
            · exfalso
              rw [hss, hnone] at hls
              exact Option.noConfusion hls
            · rw [if_neg hss]
              exact hls
      · rw [if_neg ht]
        constructor
        · intro h
          by_cases hs : s = st
          · rw [if_pos hs] at h
            injection h with h
            exact absurd h.symm ht
          · rw [if_neg hs] at h
            exact (hd' s t).mp h
        · rintro ⟨l, hl, hm⟩
          have hls := (hd' s t).mpr ⟨l, hl, hm⟩
          by_cases hs : s = st
          · exfalso
            rw [hs, hnone] at hls
            exact Option.noConfusion hls
          · rw [if_neg hs]
            exact hls
  | some old =>
    rw [hold] at hre0
    dsimp only [] at hre0
    have hst : d.lookup st = some old.translation := by
      unfold Dict.lookup
      rw [hold]
      rfl
    obtain ⟨lo, hlo, hmo⟩ := (hd' st old.translation).mp hst
    have hrev1 : ∀ t' : String,
        alLookup (alUpdate d.reverse_entries old.translation
          (fun set => setRemove set st)) t' =
          if t' = old.translation then some (setRemove lo st)
          else alLookup d.reverse_entries t' := by
      intro t'
      rw [alLookup_alUpdate]
      by_cases h : t' = old.translation
      · rw [if_pos h, if_pos h, hlo]
        rfl
      · rw [if_neg h, if_neg h]
    cases hfind : alLookup (alUpdate d.reverse_entries old.translation
        (fun set => setRemove set st)) tr with
    | some w0 =>
      rw [hfind] at hre0
      dsimp only [] at hre0
      have hw0 := hfind
      rw [hrev1 tr] at hw0
      intro s t
      rw [lookup_add_entry]
      unfold Dict.rev_lookup
      rw [hre0, alLookup_alUpdate, hfind, hrev1 t]
      simp only [Option.map_some']
      by_cases ht : t = tr
      · rw [if_pos ht]
        constructor
        · intro h
          refine ⟨setInsert w0 st, rfl, ?_⟩
          by_cases hs : s = st
          · rw [hs]
            exact (mem_setInsert w0 st st).mpr (Or.inl rfl)
          · rw [if_neg hs] at h
            obtain ⟨l, hl, hm⟩ := (hd' s t).mp h
            by_cases hto : tr = old.translation
            · rw [if_pos hto] at hw0
              injection hw0 with hw
              rw [ht, hto, hlo] at hl
              injection hl with he
              subst he
              have hmem : s ∈ setRemove lo st := (mem_setRemove lo st s).mpr ⟨hm, hs⟩
              rw [hw] at hmem
              exact (mem_setInsert w0 st s).mpr (Or.inr hmem)
            · rw [if_neg hto] at hw0
              rw [ht, hw0] at hl
              injection hl with he
              subst he
              exact (mem_setInsert w0 st s).mpr (Or.inr hm)
        · rintro ⟨l, hl, hm⟩
          injection hl with he
          subst he
          rcases (mem_setInsert w0 st s).mp hm with hs | hs
          · rw [if_pos hs, ht]
          · by_cases hto : tr = old.translation
            · rw [if_pos hto] at hw0
              injection hw0 with hw
              rw [← hw] at hs
              obtain ⟨hml, hsne⟩ := (mem_setRemove lo st s).mp hs
              rw [if_neg hsne]
              refine (hd' s t).mpr ⟨lo, ?_, hml⟩
              rw [ht, hto]
              exact hlo
            · rw [if_neg hto] at hw0
              have hls : d.lookup s = some t :=
                (hd' s t).mpr ⟨w0, by rw [ht]; exact hw0, hs⟩
              by_cases hss : s = st
              · exfalso
                rw [hss, hst] at hls
                injection hls with he2
                rw [ht] at he2
                exact hto he2.symm
              · rw [if_neg hss]
                exact hls
      · rw [if_neg ht]
        by_cases hto : t = old.translation
        · rw [if_pos hto]
          constructor
          · intro h
            by_cases hs : s = st
            · rw [if_pos hs] at h
              injection h with h
              exact absurd h.symm ht
            · rw [if_neg hs] at h
              obtain ⟨l, hl, hm⟩ := (hd' s t).mp h
              rw [hto, hlo] at hl
              injection hl with he
              subst he
              exact ⟨setRemove lo st, rfl, (mem_setRemove lo st s).mpr ⟨hm, hs⟩⟩
          · rintro ⟨l, hl, hm⟩
            injection hl with he
            subst he
            obtain ⟨hml, hsne⟩ := (mem_setRemove lo st s).mp hm
            rw [if_neg hsne]
            exact (hd' s t).mpr ⟨lo, by rw [hto]; exact hlo, hml⟩
        · rw [if_neg hto]
          constructor
          · intro h
            by_cases hs : s = st
            · rw [if_pos hs] at h
              injection h with h
              exact absurd h.symm ht
            · rw [if_neg hs] at h
              exact (hd' s t).mp h
          · rintro ⟨l, hl, hm⟩
            have hls := (hd' s t).mpr ⟨l, hl, hm⟩
            by_cases hs : s = st
            · exfalso
              rw [hs, hst] at hls
              injection hls with he
              exact hto he.symm
            · rw [if_neg hs]
              exact hls
    | none =>
      rw [hfind] at hre0
      dsimp only [] at hre0
      have hw0 := hfind
      rw [hrev1 tr] at hw0
      have htro : ¬ tr = old.translation := by
        intro h
        rw [if_pos h] at hw0
        exact Option.noConfusion hw0
      rw [if_neg htro] at hw0
      intro s t
      rw [lookup_add_entry]
      unfold Dict.rev_lookup
      rw [hre0]
      by_cases hto : t = old.translation
      · have hsome : alLookup (alUpdate d.reverse_entries old.translation
            (fun set => setRemove set st)) t = some (setRemove lo st) := by
          rw [hrev1 t, if_pos hto]
        rw [alLookup_append_some tr [st] hsome]
        have ht : ¬ t = tr := by
          intro h
          rw [← h] at htro
          exact htro hto
        constructor
        · intro h
          by_cases hs : s = st
          · rw [if_pos hs] at h
            injection h with h
            exact absurd h.symm ht
          · rw [if_neg hs] at h
            obtain ⟨l, hl, hm⟩ := (hd' s t).mp h
            rw [hto, hlo] at hl
            injection hl with he
            subst he
            exact ⟨setRemove lo st, rfl, (mem_setRemove lo st s).mpr ⟨hm, hs⟩⟩
        · rintro ⟨l, hl, hm⟩
          injection hl with he
          subst he
          obtain ⟨hml, hsne⟩ := (mem_setRemove lo st s).mp hm
          rw [if_neg hsne]
          exact (hd' s t).mpr ⟨lo, by rw [hto]; exact hlo, hml⟩
      · have hpass : alLookup (alUpdate d.reverse_entries old.translation
            (fun set => setRemove set st)) t = alLookup d.reverse_entries t := by
          rw [hrev1 t, if_neg hto]
        cases halt : alLookup d.reverse_entries t with
        | some l0 =>
          have hsome : alLookup (alUpdate d.reverse_entries old.translation
              (fun set => setRemove set st)) t = some l0 := by
            rw [hpass, halt]
          rw [alLookup_append_some tr [st] hsome]
          constructor
          · intro h
            by_cases hs : s = st
            · rw [if_pos hs] at h
              injection h with h
              exfalso
              rw [← h] at halt
              rw [hw0] at halt
              exact Option.noConfusion halt
            · rw [if_neg hs] at h
              obtain ⟨l, hl, hm⟩ := (hd' s t).mp h
              rw [halt] at hl
              injection hl with he
              subst he
              exact ⟨l0, rfl, hm⟩
          · rintro ⟨l, hl, hm⟩
            injection hl with he
            subst he
            have hls := (hd' s t).mpr ⟨l0, halt, hm⟩
            by_cases hs : s = st
            · exfalso
              rw [hs, hst] at hls
              injection hls with he2
              exact hto he2.symm
            · rw [if_neg hs]
              exact hls
        | none =>
          have hn : alLookup (alUpdate d.reverse_entries old.translation
              (fun set => setRemove set st)) t = none := by
            rw [hpass, halt]
          rw [alLookup_append_none tr [st] hn]
          by_cases htr : t = tr
          · rw [if_pos htr]
            constructor
            · intro h
              by_cases hs : s = st
              · exact ⟨[st], rfl, by rw [hs]; exact List.mem_singleton.mpr rfl⟩
              · rw [if_neg hs] at h
                obtain ⟨l, hl, _⟩ := (hd' s t).mp h
                rw [halt] at hl
                exact Option.noConfusion hl
            · rintro ⟨l, hl, hm⟩
              injection hl with he
              subst he
              have hs := List.mem_singleton.mp hm
              rw [if_pos hs, htr]
          · rw [if_neg htr]
            constructor
            · intro h
              by_cases hs : s = st
              · rw [if_pos hs] at h
                injection h with h
                exact absurd h.symm htr
              · rw [if_neg hs] at h
                obtain ⟨l, hl, _⟩ := (hd' s t).mp h
                rw [halt] at hl
                exact Option.noConfusion hl
            · rintro ⟨l, hl, _⟩
              exact Option.noConfusion hl

end Rtfcre

namespace Rtfcre

theorem remove_entry_none (d : Dict) (st : String)
    (hold : alLookup d.entries st = none) : d.remove_entry st = d := by
  unfold Dict.remove_entry
  rw [hold]

theorem remove_entry_some (d : Dict) (st : String) (e : DEntry)
    (hold : alLookup d.entries st = some e) :
    d.remove_entry st =
      ⟨alErase d.entries st,
       match alLookup d.reverse_entries e.translation with
       | some set =>
         if setRemove set st = [] then alErase d.reverse_entries e.translation
         else alUpdate d.reverse_entries e.translation (fun _ => setRemove set st)
       | none => d.reverse_entries,
       d.longest_key⟩ := by
  unfold Dict.remove_entry
  rw [hold]

theorem dictInv_remove (d : Dict) (st : String) (hd : DictInv d) :
    DictInv (d.remove_entry st) := by
  have hd' : ∀ s t : String,
      d.lookup s = some t ↔ ∃ l, alLookup d.reverse_entries t = some l ∧ s ∈ l :=
    fun s t => hd s t
  cases hold : alLookup d.entries st with
  | none =>
    rw [remove_entry_none d st hold]
    exact hd
  | some e =>
    have hst : d.lookup st = some e.translation := by
      unfold Dict.lookup
      rw [hold]
      rfl
    obtain ⟨lo, hlo, hmo⟩ := (hd' st e.translation).mp hst
    have hrem := remove_entry_some d st e hold
    rw [hlo] at hrem
    dsimp only [] at hrem
    have hlook : ∀ s, (d.remove_entry st).lookup s =
        if s = st then none else d.lookup s := by
      intro s
      unfold Dict.lookup
      rw [hrem]
      dsimp only []
      rw [alLookup_alErase]
      by_cases h : s = st
      · rw [if_pos h, if_pos h]
        rfl
      · rw [if_neg h, if_neg h]
    intro s t
    rw [hlook]
    unfold Dict.rev_lookup
    rw [hrem]
    dsimp only []
    by_cases hemp : setRemove lo st = []
    · rw [if_pos hemp, alLookup_alErase]
      by_cases hto : t = e.translation
      · rw [if_pos hto]
        constructor
        · intro h
          by_cases hs : s = st
          · rw [if_pos hs] at h
            exact Option.noConfusion h
          · rw [if_neg hs] at h
            obtain ⟨l, hl, hm⟩ := (hd' s t).mp h
            rw [hto, hlo] at hl
            injection hl with he
            subst he
            have hmem : s ∈ setRemove lo st := (mem_setRemove lo st s).mpr ⟨hm, hs⟩
            rw [hemp] at hmem
            exact absurd hmem (List.not_mem_nil s)
        · rintro ⟨l, hl, _⟩
          exact Option.noConfusion hl
      · rw [if_neg hto]
        constructor
        · intro h
          by_cases hs : s = st
          · rw [if_pos hs] at h
            exact Option.noConfusion h
          · rw [if_neg hs] at h
            exact (hd' s t).mp h
        · rintro ⟨l, hl, hm⟩
          have hls := (hd' s t).mpr ⟨l, hl, hm⟩
          by_cases hs : s = st
          · exfalso
            rw [hs, hst] at hls
            injection hls with he
            exact hto he.symm
          · rw [if_neg hs]
            exact hls
    · rw [if_neg hemp, alLookup_alUpdate]
      by_cases hto : t = e.translation
      · rw [if_pos hto, hlo]
        simp only [Option.map_some']
        constructor
        · intro h
          by_cases hs : s = st
          · rw [if_pos hs] at h
            exact Option.noConfusion h
          · rw [if_neg hs] at h
            obtain ⟨l, hl, hm⟩ := (hd' s t).mp h
            rw [hto, hlo] at hl
            injection hl with he
            subst he
            exact ⟨setRemove lo st, rfl, (mem_setRemove lo st s).mpr ⟨hm, hs⟩⟩
        · rintro ⟨l, hl, hm⟩
          injection hl with he
          subst he
          obtain ⟨hml, hsne⟩ := (mem_setRemove lo st s).mp hm
          rw [if_neg hsne]
          exact (hd' s t).mpr ⟨lo, by rw [hto]; exact hlo, hml⟩
      · rw [if_neg hto]
        constructor
        · intro h
          by_cases hs : s = st
          · rw [if_pos hs] at h
            exact Option.noConfusion h
          · rw [if_neg hs] at h
            exact (hd' s t).mp h
        · rintro ⟨l, hl, hm⟩
          have hls := (hd' s t).mpr ⟨l, hl, hm⟩
          by_cases hs : s = st
          · exfalso
            rw [hs, hst] at hls
            injection hls with he
            exact hto he.symm
          · rw [if_neg hs]
            exact hls

theorem dictInv_applyOps (ops : List DictOp) :
    ∀ d : Dict, DictInv d → DictInv (applyOps d ops) := by
  induction ops with
  | nil => intro d hd; exact hd
  | cons op t ih =>
    intro d hd
    cases op with
    | add s tr c => exact ih (d.add_entry s tr c) (dictInv_add d s tr c hd)
    | remove s => exact ih (d.remove_entry s) (dictInv_remove d s hd)

theorem longest_applyOps (ops : List DictOp) :
    (applyOps Dict.empty ops).longest_key = addSlashMax ops := by
  rw [applyOps_longest]
  rfl

end Rtfcre

namespace Rtfcre

theorem orElse_fail {α : Type} (g : Unit → PRes α) :
    PRes.orElse (.fail : PRes α) g = g () := rfl

theorem orElse_ok {α : Type} (rem : List Char) (v : α) (g : Unit → PRes α) :
    PRes.orElse (.ok rem v) g = .ok rem v := rfl

theorem orElse_panic {α : Type} (g : Unit → PRes α) :
    PRes.orElse (.panic : PRes α) g = .panic := rfl

theorem tagP_sub {ps x r : List Char} (h : tagP ps x = some r) :
    ∀ c ∈ r, c ∈ x := by
  induction ps generalizing x with
  | nil =>
    simp only [tagP] at h
    injection h with h1
    subst h1
    exact fun c hc => hc
  | cons p ps ih =>
    cases x with
    | nil => simp only [tagP] at h; exact Option.noConfusion h
    | cons c cs =>
      simp only [tagP] at h
      by_cases hpc : p = c
      · rw [if_pos hpc] at h
        exact fun d hd => List.mem_cons_of_mem c (ih h d hd)
      · rw [if_neg hpc] at h
        exact Option.noConfusion h

theorem takeTillP_sub (p : Char → Bool) (x : List Char) :
    ∀ c ∈ (takeTillP p x).2, c ∈ x := by
  induction x with
  | nil => intro c hc; simp [takeTillP] at hc
  | cons a as ih =>
    intro c hc
    by_cases hp : p a
    · simp only [takeTillP, if_pos hp] at hc
      exact hc
    · simp only [takeTillP, if_neg hp] at hc
      exact List.mem_cons_of_mem a (ih c hc)

theorem takeWhileP_sub (p : Char → Bool) (x : List Char) :
    ∀ c ∈ (takeWhileP p x).2, c ∈ x := by
  induction x with
  | nil => intro c hc; simp [takeWhileP] at hc
  | cons a as ih =>
    intro c hc
    by_cases hp : p a
    · simp only [takeWhileP, if_pos hp] at hc
      exact List.mem_cons_of_mem a (ih c hc)
    · simp only [takeWhileP, if_neg hp] at hc
      exact hc

theorem takeWhile1P_sub {p : Char → Bool} {x t r : List Char}
    (h : takeWhile1P p x = some (t, r)) : ∀ c ∈ r, c ∈ x := by
  unfold takeWhile1P at h
  cases hq : takeWhileP p x with
  | mk a b =>
    rw [hq] at h
    cases a with
    | nil => exact Option.noConfusion h
    | cons a0 as0 =>
      dsimp only [] at h
      injection h with h1
      injection h1 with h2 h3
      subst h3
      intro c hc
      have hb : c ∈ (takeWhileP p x).2 := by rw [hq]; exact hc
      exact takeWhileP_sub p x c hb

theorem altTags_sub {tss : List (List Char)} {x t r : List Char}
    (h : altTags tss x = some (t, r)) : ∀ c ∈ r, c ∈ x := by
  induction tss with
  | nil => simp [altTags] at h
  | cons ts tss ih =>
    simp only [altTags] at h
    cases hq : tagP ts x with
    | none => rw [hq] at h; exact ih h
    | some rem =>
      rw [hq] at h
      injection h with h1
      injection h1 with h2 h3
      subst h3
      exact tagP_sub hq

theorem altTags_mem {tss : List (List Char)} {x t r : List Char}
    (h : altTags tss x = some (t, r)) : t ∈ tss := by
  induction tss with
  | nil => simp [altTags] at h
  | cons ts tss ih =>
    simp only [altTags] at h
    cases hq : tagP ts x with
    | none => rw [hq] at h; exact List.mem_cons_of_mem ts (ih h)
    | some rem =>
      rw [hq] at h
      injection h with h1
      injection h1 with h2 h3
      subst h2
      exact List.mem_cons_self ts tss

theorem number_sub {x r : List Char} {n : Int} (h : Rtf.number x = .ok r n) :
    ∀ c ∈ r, c ∈ x := by
  unfold Rtf.number at h
  cases hm : tagP ['-'] x with
  | some r1 =>
    rw [hm] at h
    dsimp only [] at h
    cases hw : takeWhile1P isAsciiDigit r1 with
    | none => rw [hw] at h; exact fun c hc => absurd h (by simp)
    | some pr =>
      obtain ⟨ds, r2⟩ := pr
      rw [hw] at h
      dsimp only [] at h
      split at h
      · injection h with ha hb
        subst ha
        exact fun c hc => tagP_sub hm c (takeWhile1P_sub hw c hc)
      · exact PRes.noConfusion h
  | none =>
    rw [hm] at h
    dsimp only [] at h
    cases hw : takeWhile1P isAsciiDigit x with
    | none => rw [hw] at h; exact PRes.noConfusion h
    | some pr =>
      obtain ⟨ds, r2⟩ := pr
      rw [hw] at h
      dsimp only [] at h
      split at h
      · injection h with ha hb
        subst ha
        exact fun c hc => takeWhile1P_sub hw c hc
      · exact PRes.noConfusion h

theorem positive_number_sub {x r : List Char} {n : Nat}
    (h : Rtf.positive_number x = .ok r n) : ∀ c ∈ r, c ∈ x := by
  unfold Rtf.positive_number at h
  cases hw : takeWhile1P isAsciiDigit x with
  | none => rw [hw] at h; exact PRes.noConfusion h
  | some pr =>
    obtain ⟨ds, r2⟩ := pr
    rw [hw] at h
    dsimp only [] at h
    split at h
    · injection h with ha hb
      subst ha
      exact fun c hc => takeWhile1P_sub hw c hc
    · exact PRes.noConfusion h

end Rtfcre

namespace Rtfcre

theorem plover_escaped_shape {x rem : List Char} {o : Object}
    (h : Plover.escaped x = .ok rem o) :
    o ≠ Object.RawString [] ∧ ∀ c ∈ rem, c ∈ x := by
  unfold Plover.escaped at h
  cases h1 : tagP ['\\', '\\'] x with
  | some r =>
    rw [h1] at h
    dsimp only [] at h
    injection h with ha hb
    refine ⟨?_, ?_⟩
    · rw [← hb]; intro hx; simp at hx
    · intro c hc; rw [← ha] at hc; exact tagP_sub h1 c hc
  | none =>
    rw [h1] at h
    cases h2 : tagP ['\\', '\x7b'] x with
    | some r =>
      rw [h2] at h
      dsimp only [] at h
      injection h with ha hb
      refine ⟨?_, ?_⟩
      · rw [← hb]; intro hx; simp at hx
      · intro c hc; rw [← ha] at hc; exact tagP_sub h2 c hc
    | none =>
      rw [h2] at h
      cases h3 : tagP ['\\', '\x7d'] x with
      | some r =>
        rw [h3] at h
        dsimp only [] at h
        injection h with ha hb
        refine ⟨?_, ?_⟩
        · rw [← hb]; intro hx; simp at hx
        · intro c hc; rw [← ha] at hc; exact tagP_sub h3 c hc
      | none => rw [h3] at h; exact PRes.noConfusion h

theorem raw_shape {c : Char} {cs rem : List Char} {o : Object}
    (hp : ¬(c = '\x7b' ∨ c = '\\'))
    (h : Plover.raw (c :: cs) = .ok rem o) :
    o ≠ Object.RawString [] ∧ ∀ d ∈ rem, d ∈ (c :: cs) := by
  unfold Plover.raw at h
  dsimp only [] at h
  have hstep : takeTillP (fun d => d = '\x7b' ∨ d = '\\') (c :: cs) =
      (c :: (takeTillP (fun d => d = '\x7b' ∨ d = '\\') cs).1,
       (takeTillP (fun d => d = '\x7b' ∨ d = '\\') cs).2) := by
    simp [takeTillP, hp]
  rw [hstep] at h
  injection h with ha hb
  refine ⟨?_, ?_⟩
  · rw [← hb]; intro hx; simp at hx
  · intro d hd
    rw [← ha] at hd
    exact List.mem_cons_of_mem c (takeTillP_sub _ cs d hd)

theorem altPlover_bslash (cs : List Char) :
    Plover.altPlover ('\\' :: cs) =
      (Plover.escaped ('\\' :: cs)).orElse fun _ =>
        Plover.raw ('\\' :: cs) := by
  have h1 : ('\\' : Char) ≠ '\x7b' := by decide
  simp [Plover.altPlover, PRes.orElse, spaces_fail h1, cancel_fail h1,
    noop_fail h1, par_fail h1, command_fail h1, mode_space_fail h1,
    mode_fail h1, glue_fail h1, currency_fail h1, currency_meta_fail h1,
    key_combo_fail h1, punctuation_fail h1, operator_fail h1, meta_fail h1,
    carry_alt_fail h1, attach_alt_fail h1, anything_fail h1]

theorem plover_step {c : Char} {cs rem : List Char} {o : Object}
    (hb : '\x7b' ∉ (c :: cs))
    (h : Plover.altPlover (c :: cs) = .ok rem o)
    (hprog : rem ≠ c :: cs) :
    o ≠ Object.RawString [] ∧ '\x7b' ∉ rem := by
  have h1 : c ≠ '\x7b' := fun he => hb (he ▸ List.mem_cons_self c cs)
  by_cases h2 : c = '\\'
  · subst h2
    rw [altPlover_bslash] at h
    cases he : Plover.escaped ('\\' :: cs) with
    | ok r v =>
      rw [he, orElse_ok] at h
      injection h with ha hbj
      subst ha
      subst hbj
      obtain ⟨hv, hsub⟩ := plover_escaped_shape he
      exact ⟨hv, fun hx => hb (hsub '\x7b' hx)⟩
    | fail =>
      rw [he, orElse_fail] at h
      have hraw : Plover.raw ('\\' :: cs) =
          .ok ('\\' :: cs) (Object.RawString []) := rfl
      rw [hraw] at h
      injection h with ha hbj
      exact absurd ha.symm hprog
    | panic =>
      rw [he, orElse_panic] at h
      exact PRes.noConfusion h
  · rw [altPlover_eq_raw h1 h2] at h
    obtain ⟨hv, hsub⟩ := raw_shape (by tauto) h
    exact ⟨hv, fun hx => hb (hsub '\x7b' hx)⟩

end Rtfcre

namespace Rtfcre

theorem restF_no_empty_raw {fuel : Nat} :
    ∀ {s rem : List Char} {objs : List Object},
      '\x7b' ∉ s → Plover.restF fuel s = .ok rem objs →
      Object.RawString [] ∉ objs := by
  induction fuel with
  | zero =>
    intro s rem objs hb h
    cases h
  | succ f ih =>
    intro s rem objs hb h
    rw [Plover.restF] at h
    by_cases hs : s = []
    · rw [if_pos hs] at h
      injection h with h1 h2
      subst h2
      simp
    rw [if_neg hs] at h
    obtain ⟨c, cs, rfl⟩ := List.exists_cons_of_ne_nil hs
    cases halt : Plover.altPlover (c :: cs) with
    | panic => rw [halt] at h; cases h
    | fail => rw [halt] at h; cases h
    | ok rem1 first =>
      rw [halt] at h
      dsimp only [] at h
      by_cases hlen : rem1.length < (c :: cs).length
      · rw [if_pos hlen] at h
        have hprog : rem1 ≠ c :: cs := by
          intro he
          rw [he] at hlen
          exact Nat.lt_irrefl _ hlen
        obtain ⟨hfirst, hrem1⟩ := plover_step hb halt hprog
        cases hrec : Plover.restF f rem1 with
        | diverge => rw [hrec] at h; cases h
        | panic => rw [hrec] at h; cases h
        | fail =>
          rw [hrec] at h
          dsimp only [] at h
          injection h with h1 h2
          subst h2
          intro ho
          simp only [List.mem_singleton] at ho
          exact hfirst ho.symm
        | ok rem2 more =>
          rw [hrec] at h
          dsimp only [] at h
          injection h with h1 h2
          subst h2
          intro ho
          rcases List.mem_cons.1 ho with ho | ho
          · exact hfirst ho.symm
          · exact ih hrem1 hrec ho
      · rw [if_neg hlen] at h
        cases h

set_option maxHeartbeats 1000000 in
theorem macroRule_no_raw {s rem : List Char} {objs : List Object}
    (h : Plover.macroRule s = .ok rem objs) :
    Object.RawString [] ∉ objs := by
  unfold Plover.macroRule at h
  dsimp only [] at h
  split at h
  · cases h
  · injection h with h1 h2
    subst h2
    intro ho
    simp only [List.mem_singleton] at ho
    revert ho
    split_ifs
    all_goals intro hx
    all_goals first
    | exact hx
    | exact Object.noConfusion hx
    | exact Object.noConfusion hx.symm

theorem plover_no_empty_raw {input : List Char} {objs : List Object}
    (hb : '\x7b' ∉ input)
    (h : Plover.parse_translation input = ParseOut.ok objs) :
    Object.RawString [] ∉ objs := by
  unfold Plover.parse_translation at h
  intro hmem
  cases hm : Plover.macroRule input with
  | ok r objs2 =>
    rw [hm] at h
    injection h with h1
    subst h1
    exact macroRule_no_raw hm hmem
  | panic => rw [hm] at h; cases h
  | fail =>
    rw [hm] at h
    cases hr : Plover.rest input with
    | ok r objs2 =>
      rw [hr] at h
      injection h with h1
      subst h1
      exact restF_no_empty_raw hb hr hmem
    | fail =>
      rw [hr] at h
      injection h with h1
      subst h1
      simp at hmem
    | panic => rw [hr] at h; cases h
    | diverge => rw [hr] at h; cases h

end Rtfcre

namespace Rtfcre

theorem optSpace_sub {r2 : List Char} (c : Char)
    (hc : c ∈ (match tagP [' '] r2 with | some r => r | none => r2)) :
    c ∈ r2 := by
  cases h3 : tagP [' '] r2 with
  | some r =>
    rw [h3] at hc
    exact tagP_sub h3 c hc
  | none =>
    rw [h3] at hc
    exact hc

theorem rtf_par_shape {x rem : List Char} {o : Object}
    (h : Rtf.par x = .ok rem o) :
    o ≠ Object.RawString [] ∧ ∀ c ∈ rem, c ∈ x := by
  unfold Rtf.par at h
  cases h1 : tagP ['\\', 'p', 'a', 'r', '\\', 's'] x with
  | none => rw [h1] at h; exact PRes.noConfusion h
  | some r1 =>
    rw [h1] at h
    dsimp only [] at h
    cases h2 : Rtf.number r1 with
    | fail => rw [h2] at h; exact PRes.noConfusion h
    | panic => rw [h2] at h; exact PRes.noConfusion h
    | ok r2 n =>
      rw [h2] at h
      dsimp only [] at h
      injection h with ha hb
      refine ⟨?_, ?_⟩
      · rw [← hb]; exact fun hx => Object.noConfusion hx
      · intro c hc
        rw [← ha] at hc
        exact tagP_sub h1 c (number_sub h2 c (optSpace_sub c hc))

theorem dstroke_shape {x rem : List Char} {o : Object}
    (h : Rtf.dstroke x = .ok rem o) :
    o ≠ Object.RawString [] ∧ ∀ c ∈ rem, c ∈ x := by
  unfold Rtf.dstroke at h
  cases h1 : tagP ("\\cxdstroke".toList) x with
  | none => rw [h1] at h; exact PRes.noConfusion h
  | some r1 =>
    rw [h1] at h
    dsimp only [] at h
    injection h with ha hb
    refine ⟨?_, ?_⟩
    · rw [← hb]; exact fun hx => Object.noConfusion hx
    · intro c hc
      rw [← ha] at hc
      exact tagP_sub h1 c (optSpace_sub c hc)

theorem fl_fc_shape {x rem : List Char} {o : Object}
    (h : Rtf.fl_fc x = .ok rem o) :
    o ≠ Object.RawString [] ∧ ∀ c ∈ rem, c ∈ x := by
  unfold Rtf.fl_fc at h
  cases h1 : tagP ['\\', 'c', 'x', 'f'] x with
  | none => rw [h1] at h; exact PRes.noConfusion h
  | some r1 =>
    rw [h1] at h
    dsimp only [] at h
    cases h2 : altTags [['l'], ['c']] r1 with
    | none => rw [h2] at h; exact PRes.noConfusion h
    | some pr =>
      obtain ⟨m, r2⟩ := pr
      rw [h2] at h
      dsimp only [] at h
      have hm := altTags_mem h2
      simp only [List.mem_cons, List.mem_singleton] at hm
      have hsub : ∀ c ∈ rem, c ∈ x := by
        rcases hm with hm | hm | hm
        all_goals try
          subst hm
        all_goals
          first
          | (rw [if_pos rfl] at h
             injection h with ha hb
             intro c hc
             rw [← ha] at hc
             exact tagP_sub h1 c (altTags_sub h2 c (optSpace_sub c hc)))
          | (rw [if_neg (by decide), if_pos rfl] at h
             injection h with ha hb
             intro c hc
             rw [← ha] at hc
             exact tagP_sub h1 c (altTags_sub h2 c (optSpace_sub c hc)))
          | exact absurd hm (by simp)
      refine ⟨?_, hsub⟩
      rcases hm with hm | hm | hm
      · subst hm
        rw [if_pos rfl] at h
        injection h with ha hb
        rw [← hb]
        exact fun hx => Object.noConfusion hx
      · subst hm
        rw [if_neg (by decide), if_pos rfl] at h
        injection h with ha hb
        rw [← hb]
        exact fun hx => Object.noConfusion hx
      · exact absurd hm (by simp)

theorem dspace_shape {x rem : List Char} {o : Object}
    (h : Rtf.dspace x = .ok rem o) :
    o ≠ Object.RawString [] ∧ ∀ c ∈ rem, c ∈ x := by
  unfold Rtf.dspace at h
  cases h1 : tagP ("\\cxds".toList) x with
  | none => rw [h1] at h; exact PRes.noConfusion h
  | some r1 =>
    rw [h1] at h
    dsimp only [] at h
    injection h with ha hb
    refine ⟨?_, ?_⟩
    · rw [← hb]; exact fun hx => Object.noConfusion hx
    · intro c hc
      rw [← ha] at hc
      exact tagP_sub h1 c (optSpace_sub c hc)

theorem rtf_escaped_shape {x rem : List Char} {o : Object}
    (h : Rtf.escaped x = .ok rem o) :
    o ≠ Object.RawString [] ∧ ∀ c ∈ rem, c ∈ x := by
  unfold Rtf.escaped at h
  cases h1 : tagP ['\\'] x with
  | none => rw [h1] at h; exact PRes.noConfusion h
  | some r1 =>
    rw [h1] at h
    dsimp only [] at h
    cases h2 : altTags [['\\'], ['\x7b'], ['\x7d'], ['~'], ['_']] r1 with
    | none => rw [h2] at h; exact PRes.noConfusion h
    | some pr =>
      obtain ⟨m, r2⟩ := pr
      rw [h2] at h
      dsimp only [] at h
      have hsub : ∀ c ∈ r2, c ∈ x :=
        fun c hc => tagP_sub h1 c (altTags_sub h2 c hc)
      by_cases hm1 : m = ['~']
      · rw [if_pos hm1] at h
        injection h with ha hb
        refine ⟨?_, ?_⟩
        · rw [← hb]; exact fun hx => Object.noConfusion hx
        · intro c hc; rw [← ha] at hc; exact hsub c hc
      · rw [if_neg hm1] at h
        by_cases hm2 : m = ['_']
        · rw [if_pos hm2] at h
          injection h with ha hb
          refine ⟨?_, ?_⟩
          · rw [← hb]; intro hx; simp at hx
          · intro c hc; rw [← ha] at hc; exact hsub c hc
        · rw [if_neg hm2] at h
          injection h with ha hb
          refine ⟨?_, ?_⟩
          · rw [← hb]; intro hx; simp at hx
          · intro c hc; rw [← ha] at hc; exact hsub c hc

theorem hyphen_shape {x rem : List Char} {o : Object}
    (h : Rtf.hyphen x = .ok rem o) :
    o ≠ Object.RawString [] ∧ ∀ c ∈ rem, c ∈ x := by
  unfold Rtf.hyphen at h
  cases h1 : tagP ['\\', '_'] x with
  | none => rw [h1] at h; exact PRes.noConfusion h
  | some r =>
    rw [h1] at h
    dsimp only [] at h
    injection h with ha hb
    refine ⟨?_, ?_⟩
    · rw [← hb]; intro hx; simp at hx
    · intro c hc; rw [← ha] at hc; exact tagP_sub h1 c hc

theorem unicode_shape {x rem : List Char} {o : Object}
    (h : Rtf.unicode x = .ok rem o) :
    o ≠ Object.RawString [] ∧ ∀ c ∈ rem, c ∈ x := by
  unfold Rtf.unicode at h
  cases h1 : tagP ['\\', 'u'] x with
  | none => rw [h1] at h; exact PRes.noConfusion h
  | some r1 =>
    rw [h1] at h
    dsimp only [] at h
    cases h2 : Rtf.positive_number r1 with
    | fail => rw [h2] at h; exact PRes.noConfusion h
    | panic => rw [h2] at h; exact PRes.noConfusion h
    | ok r2 n =>
      rw [h2] at h
      dsimp only [] at h
      split at h
      · injection h with ha hb
        refine ⟨?_, ?_⟩
        · rw [← hb]; intro hx; simp at hx
        · intro c hc
          rw [← ha] at hc
          exact tagP_sub h1 c (positive_number_sub h2 c (optSpace_sub c hc))
      · exact PRes.noConfusion h

theorem newline_shape {x rem : List Char} {o : Object}
    (h : Rtf.newline x = .ok rem o) :
    o ≠ Object.RawString [] ∧ ∀ c ∈ rem, c ∈ x := by
  unfold Rtf.newline at h
  cases h1 : tagP ['\\'] x with
  | none => rw [h1] at h; exact PRes.noConfusion h
  | some r1 =>
    rw [h1] at h
    dsimp only [] at h
    cases h2 : altTags [['n'], ['t']] r1 with
    | none => rw [h2] at h; exact PRes.noConfusion h
    | some pr =>
      obtain ⟨m, r2⟩ := pr
      rw [h2] at h
      dsimp only [] at h
      injection h with ha hb
      refine ⟨?_, ?_⟩
      · rw [← hb]; intro hx; simp at hx
      · intro c hc
        rw [← ha] at hc
        exact tagP_sub h1 c (altTags_sub h2 c hc)

end Rtfcre

namespace Rtfcre

theorem altRtf_bslash (cs : List Char) :
    Rtf.altRtf ('\\' :: cs) =
      (Rtf.par ('\\' :: cs)).orElse fun _ =>
      (Rtf.dstroke ('\\' :: cs)).orElse fun _ =>
      (Rtf.fl_fc ('\\' :: cs)).orElse fun _ =>
      (Rtf.dspace ('\\' :: cs)).orElse fun _ =>
      (Rtf.escaped ('\\' :: cs)).orElse fun _ =>
      (Rtf.hyphen ('\\' :: cs)).orElse fun _ =>
      (Rtf.unicode ('\\' :: cs)).orElse fun _ =>
      (Rtf.newline ('\\' :: cs)).orElse fun _ =>
      Rtf.plain_text ('\\' :: cs) := by
  have h1 : ('\\' : Char) ≠ '\x7b' := by decide
  simp [Rtf.altRtf, PRes.orElse, long_group_fail h1, arg_group_fail h1,
    no_arg_group_fail h1, punc_group_fail h1, fing_group_fail h1,
    stit_group_fail h1, conf_group_fail h1]

theorem plain_text_shape {c : Char} {cs rem : List Char} {o : Object}
    (hc1 : c ≠ '\\') (hc2 : c ≠ '\x7b')
    (h : Rtf.plain_text (c :: cs) = .ok rem o) :
    o ≠ Object.RawString [] ∧ ∀ d ∈ rem, d ∈ (c :: cs) := by
  unfold Rtf.plain_text at h
  dsimp only [] at h
  have hstep : takeWhileP (fun d => ¬(d = '\\' ∨ d = '\x7b')) (c :: cs) =
      (c :: (takeWhileP (fun d => ¬(d = '\\' ∨ d = '\x7b')) cs).1,
       (takeWhileP (fun d => ¬(d = '\\' ∨ d = '\x7b')) cs).2) := by
    simp [takeWhileP, hc1, hc2]
  rw [hstep] at h
  injection h with ha hb
  refine ⟨?_, ?_⟩
  · rw [← hb]; intro hx; simp at hx
  · intro d hd
    rw [← ha] at hd
    exact List.mem_cons_of_mem c (takeWhileP_sub _ cs d hd)

theorem rtf_step {c : Char} {cs rem : List Char} {o : Object}
    (hb : '\x7b' ∉ (c :: cs))
    (h : Rtf.altRtf (c :: cs) = .ok rem o)
    (hprog : rem ≠ c :: cs) :
    o ≠ Object.RawString [] ∧ '\x7b' ∉ rem := by
  have h1 : c ≠ '\x7b' := fun he => hb (he ▸ List.mem_cons_self c cs)
  by_cases h2 : c = '\\'
  · subst h2
    rw [altRtf_bslash] at h
    cases hq1 : Rtf.par ('\\' :: cs) with
    | panic => rw [hq1, orElse_panic] at h; exact PRes.noConfusion h
    | ok r v =>
      rw [hq1, orElse_ok] at h
      injection h with ha hbj
      subst ha
      subst hbj
      obtain ⟨hv, hsub⟩ := rtf_par_shape hq1
      exact ⟨hv, fun hx => hb (hsub '\x7b' hx)⟩
    | fail =>
    rw [hq1, orElse_fail] at h
    cases hq2 : Rtf.dstroke ('\\' :: cs) with
    | panic => rw [hq2, orElse_panic] at h; exact PRes.noConfusion h
    | ok r v =>
      rw [hq2, orElse_ok] at h
      injection h with ha hbj
      subst ha
      subst hbj
      obtain ⟨hv, hsub⟩ := dstroke_shape hq2
      exact ⟨hv, fun hx => hb (hsub '\x7b' hx)⟩
    | fail =>
    rw [hq2, orElse_fail] at h
    cases hq3 : Rtf.fl_fc ('\\' :: cs) with
    | panic => rw [hq3, orElse_panic] at h; exact PRes.noConfusion h
    | ok r v =>
      rw [hq3, orElse_ok] at h
      injection h with ha hbj
      subst ha
      subst hbj
      obtain ⟨hv, hsub⟩ := fl_fc_shape hq3
      exact ⟨hv, fun hx => hb (hsub '\x7b' hx)⟩
    | fail =>
    rw [hq3, orElse_fail] at h
    cases hq4 : Rtf.dspace ('\\' :: cs) with
    | panic => rw [hq4, orElse_panic] at h; exact PRes.noConfusion h
    | ok r v =>
      rw [hq4, orElse_ok] at h
      injection h with ha hbj
      subst ha
      subst hbj
      obtain ⟨hv, hsub⟩ := dspace_shape hq4
      exact ⟨hv, fun hx => hb (hsub '\x7b' hx)⟩
    | fail =>
    rw [hq4, orElse_fail] at h
    cases hq5 : Rtf.escaped ('\\' :: cs) with
    | panic => rw [hq5, orElse_panic] at h; exact PRes.noConfusion h
    | ok r v =>
      rw [hq5, orElse_ok] at h
      injection h with ha hbj
      subst ha
      subst hbj
      obtain ⟨hv, hsub⟩ := rtf_escaped_shape hq5
      exact ⟨hv, fun hx => hb (hsub '\x7b' hx)⟩
    | fail =>
    rw [hq5, orElse_fail] at h
    cases hq6 : Rtf.hyphen ('\\' :: cs) with
    | panic => rw [hq6, orElse_panic] at h; exact PRes.noConfusion h
    | ok r v =>
      rw [hq6, orElse_ok] at h
      injection h with ha hbj
      subst ha
      subst hbj
      obtain ⟨hv, hsub⟩ := hyphen_shape hq6
      exact ⟨hv, fun hx => hb (hsub '\x7b' hx)⟩
    | fail =>
    rw [hq6, orElse_fail] at h
    cases hq7 : Rtf.unicode ('\\' :: cs) with
    | panic => rw [hq7, orElse_panic] at h; exact PRes.noConfusion h
    | ok r v =>
      rw [hq7, orElse_ok] at h
      injection h with ha hbj
      subst ha
      subst hbj
      obtain ⟨hv, hsub⟩ := unicode_shape hq7
      exact ⟨hv, fun hx => hb (hsub '\x7b' hx)⟩
    | fail =>
    rw [hq7, orElse_fail] at h
    cases hq8 : Rtf.newline ('\\' :: cs) with
    | panic => rw [hq8, orElse_panic] at h; exact PRes.noConfusion h
    | ok r v =>
      rw [hq8, orElse_ok] at h
      injection h with ha hbj
      subst ha
      subst hbj
      obtain ⟨hv, hsub⟩ := newline_shape hq8
      exact ⟨hv, fun hx => hb (hsub '\x7b' hx)⟩
    | fail =>
    rw [hq8, orElse_fail] at h
    have hpt : Rtf.plain_text ('\\' :: cs) =
        .ok ('\\' :: cs) (Object.RawString []) := rfl
    rw [hpt] at h
    injection h with ha hbj
    exact absurd ha.symm hprog
  · rw [altRtf_eq_plain h1 h2] at h
    obtain ⟨hv, hsub⟩ := plain_text_shape h2 h1 h
    exact ⟨hv, fun hx => hb (hsub '\x7b' hx)⟩

theorem objectsF_no_empty_raw {fuel : Nat} :
    ∀ {s rem : List Char} {objs : List Object},
      '\x7b' ∉ s → Rtf.objectsF fuel s = .ok rem objs →
      Object.RawString [] ∉ objs := by
  induction fuel with
  | zero =>
    intro s rem objs hb h
    cases h
  | succ f ih =>
    intro s rem objs hb h
    rw [Rtf.objectsF] at h
    by_cases hs : s = []
    · rw [if_pos hs] at h
      injection h with h1 h2
      subst h2
      simp
    rw [if_neg hs] at h
    obtain ⟨c, cs, rfl⟩ := List.exists_cons_of_ne_nil hs
    cases halt : Rtf.altRtf (c :: cs) with
    | panic => rw [halt] at h; cases h
    | fail => rw [halt] at h; cases h
    | ok rem1 first =>
      rw [halt] at h
      dsimp only [] at h
      by_cases hlen : rem1.length < (c :: cs).length
      · rw [if_pos hlen] at h
        have hprog : rem1 ≠ c :: cs := by
          intro he
          rw [he] at hlen
          exact Nat.lt_irrefl _ hlen
        obtain ⟨hfirst, hrem1⟩ := rtf_step hb halt hprog
        cases hrec : Rtf.objectsF f rem1 with
        | diverge => rw [hrec] at h; cases h
        | panic => rw [hrec] at h; cases h
        | fail =>
          rw [hrec] at h
          dsimp only [] at h
          injection h with h1 h2
          subst h2
          intro ho
          simp only [List.mem_singleton] at ho
          exact hfirst ho.symm
        | ok rem2 more =>
          rw [hrec] at h
          dsimp only [] at h
          injection h with h1 h2
          subst h2
          intro ho
          rcases List.mem_cons.1 ho with ho | ho
          · exact hfirst ho.symm
          · exact ih hrem1 hrec ho
      · rw [if_neg hlen] at h
        cases h

theorem rtf_no_empty_raw {input : List Char} {objs : List Object}
    (hb : '\x7b' ∉ input)
    (h : Rtf.parse_translation input = ParseOut.ok objs) :
    Object.RawString [] ∉ objs := by
  unfold Rtf.parse_translation at h
  intro hmem
  cases hr : Rtf.objects input with
  | ok r objs2 =>
    rw [hr] at h
    injection h with h1
    subst h1
    exact objectsF_no_empty_raw hb hr hmem
  | fail =>
    rw [hr] at h
    injection h with h1
    subst h1
    simp at hmem
  | panic => rw [hr] at h; cases h
  | diverge => rw [hr] at h; cases h

end Rtfcre

namespace Rtfcre

/-- C1: the totality claim is false of the code: the Plover→RTF transcoder
recurses forever on the input `\a` (the alternative consumes nothing and
`rest` calls itself on the same input) and panics on `\x7b:glue\x7d` (an
`unwrap` of a failed slice), while the RTF→Plover transcoder panics on
`\x7b\cxp\x7d` (byte-slice underflow in `punc_group`) and recurses forever
on `\x7b\cxa Q. \x7d`.  The model reports these outcomes as `Out.diverge`
and `Out.panic`. -/
theorem c1_totality_refuted :
    format_plover_to_rtf "\\a".toList = Out.diverge ∧
    format_plover_to_rtf "\x7b:glue\x7d".toList = Out.panic ∧
    format_rtf_to_plover "\x7b\\cxp\x7d".toList = Out.panic ∧
    format_rtf_to_plover "\x7b\\cxa Q. \x7d".toList = Out.diverge :=
  ⟨rfl, rfl, rfl, rfl⟩

/-- C2: amended round trip: every payload-free directive in
`nullaryDirectives` is reproduced exactly by rendering it with a dialect's
formatter and re-parsing the rendered text with the same dialect's parser,
in both dialects.  (The original claim over *all* producible directives is
refuted by `OrthoAttach`, which renders as the empty string.) -/
theorem c2_nullary_roundtrip (d : Object) (hd : d ∈ nullaryDirectives) :
    Plover.parse_translation (renderPloverObj d) = ParseOut.ok [d] ∧
    Rtf.parse_translation (renderRtfObj d) = ParseOut.ok [d] := by
  fin_cases hd <;> exact ⟨rfl, rfl⟩

/-- C2 witness: the round trip at the concrete directive `Cancel`. -/
theorem c2_nullary_roundtrip_witness :
    Plover.parse_translation (renderPloverObj Object.Cancel) =
      ParseOut.ok [Object.Cancel] ∧
    Rtf.parse_translation (renderRtfObj Object.Cancel) =
      ParseOut.ok [Object.Cancel] :=
  c2_nullary_roundtrip Object.Cancel (by decide)

/-- C2 counterexample: `OrthoAttach` is produced by the RTF parser but
renders as the empty string in both dialects, and the empty string
re-parses to the empty directive sequence, not `[OrthoAttach]`. -/
theorem c2_nullary_roundtrip_counterexample :
    Rtf.parse_translation "\x7b\\*\\cxplvrortho\x7d".toList =
      ParseOut.ok [Object.OrthoAttach] ∧
    renderPloverObj Object.OrthoAttach = [] ∧
    renderRtfObj Object.OrthoAttach = [] ∧
    Plover.parse_translation (renderPloverObj Object.OrthoAttach) =
      ParseOut.ok [] ∧
    Rtf.parse_translation (renderRtfObj Object.OrthoAttach) =
      ParseOut.ok [] :=
  ⟨rfl, rfl, rfl, rfl, rfl⟩

/-- C3: the §8 scenario table as the code actually behaves: every row holds
in both directions except that (a) `\x7b~|^-^\x7d` renders to RTF *without*
the `\x7b\*\cxplvrortho\x7d` marker, and (b) the RTF→Plover direction of the
`lookup` row lower-cases the command name and leaves `\x7b^\x7ded` unfused
(the attach fixup is anchored to the whole translation). -/
theorem c3_scenarios_amended :
    format_plover_to_rtf "testing".toList = Out.ok "testing".toList ∧
    format_rtf_to_plover "testing".toList = Out.ok "testing".toList ∧
    format_plover_to_rtf "\x7b.\x7d".toList =
      Out.ok "\x7b\\cxp. \x7d".toList ∧
    format_rtf_to_plover "\x7b\\cxp. \x7d".toList =
      Out.ok "\x7b.\x7d".toList ∧
    format_plover_to_rtf "\x7b^ing\x7d".toList =
      Out.ok "\x7b\\*\\cxplvrortho\x7d\\cxds ing".toList ∧
    format_rtf_to_plover "\x7b\\*\\cxplvrortho\x7d\\cxds ing".toList =
      Out.ok "\x7b^ing\x7d".toList ∧
    format_plover_to_rtf "lookup\x7bPLOVER:LOOKUP\x7d\x7b-|\x7d\x7b^ed\x7d".toList =
      Out.ok "lookup\x7b\\*\\cxplvrcmd lookup\x7d\\cxfc \x7b\\*\\cxplvrortho\x7d\\cxds ed".toList ∧
    format_rtf_to_plover "lookup\x7b\\*\\cxplvrcmd lookup\x7d\\cxfc \x7b\\*\\cxplvrortho\x7d\\cxds ed".toList =
      Out.ok "lookup\x7bplover:lookup\x7d\x7b-|\x7d\x7b^\x7ded".toList ∧
    format_plover_to_rtf [Char.ofNat 20320, Char.ofNat 22909, '!'] =
      Out.ok "\\u20320 \\u22909 !".toList ∧
    format_rtf_to_plover "\\u20320 \\u22909 !".toList =
      Out.ok [Char.ofNat 20320, Char.ofNat 22909, '!'] ∧
    format_plover_to_rtf "\x7b~|^-^\x7d".toList =
      Out.ok "\x7b\\*\\cxplvrccap\x7d\\cxds -\\cxds ".toList ∧
    format_rtf_to_plover "\x7b\\*\\cxplvrccap\x7d\x7b\\*\\cxplvrortho\x7d\\cxds -\\cxds ".toList =
      Out.ok "\x7b~|^-^\x7d".toList ∧
    format_plover_to_rtf "=undo".toList = Out.ok "\\cxdstroke ".toList ∧
    format_rtf_to_plover "\\cxdstroke ".toList = Out.ok "=undo".toList ∧
    format_plover_to_rtf "\x7b#return\x7d\x7b#return\x7d    ".toList =
      Out.ok "\\par\\s1 ".toList ∧
    format_rtf_to_plover "\\par\\s1 ".toList =
      Out.ok "\x7b#return\x7d\x7b#return\x7d    ".toList :=
  ⟨rfl, rfl, rfl, rfl, rfl, rfl, rfl, rfl, rfl, rfl, rfl, rfl, rfl, rfl,
   rfl, rfl⟩

/-- C3 counterexample: the two rows singled out by the claim fail as
written: the carry-cap row renders without the ortho marker, and the
`lookup` row comes back from RTF with a lower-cased command name and an
unfused `\x7b^\x7ded`. -/
theorem c3_scenarios_counterexample :
    format_plover_to_rtf "\x7b~|^-^\x7d".toList =
      Out.ok "\x7b\\*\\cxplvrccap\x7d\\cxds -\\cxds ".toList ∧
    Out.ok "\x7b\\*\\cxplvrccap\x7d\\cxds -\\cxds ".toList ≠
      Out.ok "\x7b\\*\\cxplvrccap\x7d\x7b\\*\\cxplvrortho\x7d\\cxds -\\cxds ".toList ∧
    format_rtf_to_plover "lookup\x7b\\*\\cxplvrcmd lookup\x7d\\cxfc \x7b\\*\\cxplvrortho\x7d\\cxds ed".toList =
      Out.ok "lookup\x7bplover:lookup\x7d\x7b-|\x7d\x7b^\x7ded".toList ∧
    Out.ok "lookup\x7bplover:lookup\x7d\x7b-|\x7d\x7b^\x7ded".toList ≠
      Out.ok "lookup\x7bPLOVER:LOOKUP\x7d\x7b-|\x7d\x7b^ed\x7d".toList :=
  ⟨rfl, by decide, rfl, by decide⟩

/-- C4: amended Unicode fidelity: for every code point above 255 (not 127 as
claimed), rendering the one-character string produces the decimal `\uN `
form and parsing that form yields the character back. -/
theorem c4_unicode_amended (c : Char) (h : 255 < c.toNat) :
    format_plover_to_rtf [c] =
      Out.ok ('\\' :: 'u' :: (natDecimal c.toNat ++ [' '])) ∧
    format_rtf_to_plover ('\\' :: 'u' :: (natDecimal c.toNat ++ [' '])) =
      Out.ok [c] :=
  ⟨c4_plover_dir h, c4_rtf_dir c⟩

/-- C4 witness: the amended claim at the concrete code point 20320. -/
theorem c4_unicode_witness :
    format_plover_to_rtf [Char.ofNat 20320] =
      Out.ok ('\\' :: 'u' :: (natDecimal (Char.ofNat 20320).toNat ++ [' '])) ∧
    format_rtf_to_plover
        ('\\' :: 'u' :: (natDecimal (Char.ofNat 20320).toNat ++ [' '])) =
      Out.ok [Char.ofNat 20320] :=
  c4_unicode_amended (Char.ofNat 20320) (by decide)

/-- C4 counterexample: the code point 233 (é) is above 127 but is passed
through unescaped, because the formatter only escapes code points above
255. -/
theorem c4_unicode_counterexample :
    127 < (Char.ofNat 233).toNat ∧
    format_plover_to_rtf [Char.ofNat 233] = Out.ok [Char.ofNat 233] ∧
    ([Char.ofNat 233] : List Char) ≠
      '\\' :: 'u' :: (natDecimal (Char.ofNat 233).toNat ++ [' ']) :=
  ⟨by decide, rfl, by decide⟩

/-- C5: amended pure-text passthrough: both transforms are the identity on a
nonempty string that avoids `\x7b`, `\x7d`, `\`, `-`, the newline and tab
characters, whose code points are all at most 255, and whose first
character is not `=` (the claim as stated misses the last three
conditions). -/
theorem c5_passthrough_amended (c : Char) (cs : List Char)
    (h : ∀ d ∈ (c :: cs), d ≠ '\x7b' ∧ d ≠ '\x7d' ∧ d ≠ '\\' ∧ d ≠ '-' ∧
      d ≠ '\n' ∧ d ≠ '\t' ∧ d.toNat ≤ 255)
    (hh : c ≠ '=') :
    format_plover_to_rtf (c :: cs) = Out.ok (c :: cs) ∧
    format_rtf_to_plover (c :: cs) = Out.ok (c :: cs) := by
  have h1 : ∀ d ∈ (c :: cs), ¬(d = '\x7b' ∨ d = '\\') := by
    intro d hd
    have := h d hd
    tauto
  have hesc : ∀ d ∈ (c :: cs), escRtfChar d = [d] := by
    intro d hd
    obtain ⟨a1, a2, a3, a4, a5, a6, a7⟩ := h d hd
    unfold escRtfChar
    rw [if_neg (by tauto), if_neg a4, if_neg a5, if_neg a6, if_neg (by omega)]
  exact ⟨plover_identity h1 hh hesc, rtf_identity h1⟩

/-- C5 witness: the amended passthrough at the concrete string `plover`. -/
theorem c5_passthrough_witness :
    format_plover_to_rtf ('p' :: "lover".toList) =
      Out.ok ('p' :: "lover".toList) ∧
    format_rtf_to_plover ('p' :: "lover".toList) =
      Out.ok ('p' :: "lover".toList) :=
  c5_passthrough_amended 'p' "lover".toList (by decide) (by decide)

/-- C5 counterexample: `=x` and the newline character satisfy every
condition of the original claim but are not passed through by the
Plover→RTF transform (`=x` parses as a macro, the newline is escaped). -/
theorem c5_passthrough_counterexample :
    format_plover_to_rtf "=x".toList =
      Out.ok "\x7b\\*\\cxplvrmac x\x7d".toList ∧
    "=x".toList ≠ "\x7b\\*\\cxplvrmac x\x7d".toList ∧
    format_plover_to_rtf ['\n'] = Out.ok ['\\', 'n'] ∧
    ('\n').toNat ≤ 255 :=
  ⟨rfl, by decide, rfl, by decide⟩

/-- C6: the Plover parser never produces `OrthoAttach`: every successful
`Plover.parse_translation` output sequence is free of it, so a sequence
delivered to the Plover→RTF formatter never contains it. -/
theorem c6_no_ortho_from_plover {input : List Char} {objs : List Object}
    (h : Plover.parse_translation input = ParseOut.ok objs) :
    Object.OrthoAttach ∉ objs :=
  plover_parse_no_ortho h

/-- C6 witness: the invariant at the concrete input `\x7b^ing\x7d`. -/
theorem c6_no_ortho_witness :
    Plover.parse_translation "\x7b^ing\x7d".toList =
      ParseOut.ok [Object.AttachSuffix "ing".toList] ∧
    Object.OrthoAttach ∉ [Object.AttachSuffix "ing".toList] :=
  ⟨rfl, @c6_no_ortho_from_plover "\x7b^ing\x7d".toList
    [Object.AttachSuffix "ing".toList] (by rfl)⟩

/-- C7: amended: both parsers *can* emit `RawString ""` (see the
counterexample: an unrecognised `\x7bmode:...\x7d` name in Plover, an
unrecognised `\x7b\*\cxplvr...\x7d` group in RTF), but on any input that
contains no `\x7b` character a successful parse by either parser never
contains `RawString ""`. -/
theorem c7_no_empty_rawstring {input : List Char} (hb : '\x7b' ∉ input) :
    (∀ objs, Plover.parse_translation input = ParseOut.ok objs →
      Object.RawString [] ∉ objs) ∧
    (∀ objs, Rtf.parse_translation input = ParseOut.ok objs →
      Object.RawString [] ∉ objs) :=
  ⟨fun _ h => plover_no_empty_raw hb h, fun _ h => rtf_no_empty_raw hb h⟩

/-- C7 witness: the amended invariant at the concrete brace-free input
`abc`, which both parsers turn into the single directive
`RawString "abc"`. -/
theorem c7_no_empty_rawstring_witness :
    Plover.parse_translation "abc".toList =
      ParseOut.ok [Object.RawString "abc".toList] ∧
    Object.RawString [] ∉ [Object.RawString "abc".toList] :=
  ⟨rfl, (@c7_no_empty_rawstring "abc".toList (by decide)).1
    [Object.RawString "abc".toList] (by rfl)⟩

/-- C7 counterexample: both parsers emit `RawString ""`: the Plover parser
on the unknown mode name in `\x7bmode:x\x7d`, the RTF parser on the unknown
group `\x7b\*\cxplvrzzz\x7d`. -/
theorem c7_no_empty_rawstring_counterexample :
    Plover.parse_translation "\x7bmode:x\x7d".toList =
      ParseOut.ok [Object.RawString []] ∧
    Rtf.parse_translation "\x7b\\*\\cxplvrzzz\x7d".toList =
      ParseOut.ok [Object.RawString []] :=
  ⟨rfl, rfl⟩

/-- C8: the `longest_key` invariant fails: after adding the two-component
key `A/B`, `longest_key` is 1 while the maximum component count over stored
keys (`specLongest`) is 2 — the code counts `/` characters, not
components — and after removing the only entry `longest_key` stays 1 while
the dictionary is empty (`remove_entry` never updates it). -/
theorem c8_longest_key_bug :
    (Dict.empty.add_entry "A/B" "x" none).longest_key = 1 ∧
    specLongest (Dict.empty.add_entry "A/B" "x" none) = 2 ∧
    ((Dict.empty.add_entry "A/B" "x" none).remove_entry "A/B").longest_key = 1 ∧
    specLongest ((Dict.empty.add_entry "A/B" "x" none).remove_entry "A/B") = 0 ∧
    ((Dict.empty.add_entry "A/B" "x" none).remove_entry "A/B").entries = [] := by
  refine ⟨?_, ?_, ?_, ?_, ?_⟩ <;> decide

/-- C9: currency symmetry: for side strings `X` and `Y` free of `c`, `)` and
`\x7d`, the Plover currency form `\x7b*(Xc Y)\x7d` survives the round trip
Plover→RTF→Plover unchanged. -/
theorem c9_currency_roundtrip (X Y : List Char)
    (hX : ∀ ch ∈ X, ch ≠ 'c' ∧ ch ≠ ')' ∧ ch ≠ '\x7d')
    (hY : ∀ ch ∈ Y, ch ≠ 'c' ∧ ch ≠ ')' ∧ ch ≠ '\x7d') :
    Out.bind
      (format_plover_to_rtf
        ('\x7b' :: '*' :: '(' :: (X ++ 'c' :: ' ' :: (Y ++ [')', '\x7d']))))
      format_rtf_to_plover =
    Out.ok ('\x7b' :: '*' :: '(' :: (X ++ 'c' :: ' ' :: (Y ++ [')', '\x7d']))) := by
  rw [c9_p2r (fun hc => (hX 'c' hc).1 rfl) (fun hp => (hY ')' hp).2.1 rfl)]
  show format_rtf_to_plover
      ("\x7b\\*\\cxplvrcurr ".toList ++ (X ++ 'c' :: ' ' :: (Y ++ ['\x7d']))) = _
  exact c9_r2p (fun hc => (hX 'c' hc).1 rfl)
    (fun hbr => (hX '\x7d' hbr).2.2 rfl)
    (fun hbr => (hY '\x7d' hbr).2.2 rfl)

/-- C9 witness: the round trip at the concrete sides `X = Y = "$"`, i.e. the
translation `\x7b*($c $)\x7d`. -/
theorem c9_currency_roundtrip_witness :
    Out.bind
      (format_plover_to_rtf
        ('\x7b' :: '*' :: '(' :: (['$'] ++ 'c' :: ' ' :: (['$'] ++ [')', '\x7d']))))
      format_rtf_to_plover =
    Out.ok ('\x7b' :: '*' :: '(' :: (['$'] ++ 'c' :: ' ' :: (['$'] ++ [')', '\x7d']))) :=
  c9_currency_roundtrip ['$'] ['$'] (by decide) (by decide)

/-- C10: reverse-index consistency: after any sequence of `add_entry` and
`remove_entry` operations starting from the empty dictionary, a steno key
`s` is stored with translation `t` exactly when `s` belongs to the set
`rev_lookup t` returns; in particular overriding a steno removes it from
the old translation's reverse set. -/
theorem c10_reverse_index (ops : List DictOp) (s t : String) :
    (applyOps Dict.empty ops).lookup s = some t ↔
      ∃ l, (applyOps Dict.empty ops).rev_lookup t = some l ∧ s ∈ l :=
  dictInv_applyOps ops Dict.empty dictInv_empty s t

end Rtfcre
